import Mathlib

/-!
Shallow embedding of the solana-launchpad reset-program
(`programs/reset-program/src/{allocation,state,extensions,instructions}.rs`)
and proofs about its allocation, settlement and withdrawal logic.

Machine integers (`u64`) are modelled as `Nat` together with explicit
`< 2 ^ 64` guards at every `checked_*` operation, exactly where the source
uses checked arithmetic.  Fallible Rust functions returning
`anchor_lang::Result` are modelled as `Except Err`.
-/

namespace Launchpad

/-- `u64::MAX + 1`; a value is representable in `u64` iff it is `< U64MOD`. -/
def U64MOD : Nat := 2 ^ 64

/-- Union of the error variants raised by the embedded code paths
(`LauchpadError` / `ResetError` / `ResetErrorCode` in the source). -/
inductive Err where
  | divisionByZero
  | mathOverflow
  | mathUnderflow
  | invalidCalculation
  | invalidBinId
  | onlyLaunchpadAdmin
  | invalidAuctionTimeRange
  | invalidAuctionBinsLength
  | invalidAuctionBinsPriceOrCap
  | noClaimFeesConfigured
  | operationPaused
  | outOfCommitmentPeriod
  | invalidCommitmentAmount
  | missingSysvarInstructions
  | invalidCustodyAuthority
  | wrongProgram
  | malformedEd25519Ix
  | wrongWhitelistAuthority
  | payloadMismatch
  | signatureExpired
  | commitCapExceeded
  | outOfClaimPeriod
  | unauthorized
  | invalidClaimAmount
  | inCommitmentPeriod
  | doubleFundsWithdrawal
  | nonceOverflow
  | missingAccount
deriving DecidableEq, Repr

/-- Rust `u64::checked_add`. -/
def checkedAdd (a b : Nat) : Option Nat :=
  if a + b < U64MOD then some (a + b) else none

/-- Rust `u64::checked_mul`. -/
def checkedMul (a b : Nat) : Option Nat :=
  if a * b < U64MOD then some (a * b) else none

/-- Rust `u64::checked_sub`. -/
def checkedSub (a b : Nat) : Option Nat :=
  if b ≤ a then some (a - b) else none

/-- Rust `u64::checked_div`. -/
def checkedDiv (a b : Nat) : Option Nat :=
  if b = 0 then none else some (a / b)

/-- Rust `Option::ok_or` followed by `?`: lift an `Option` into `Except`. -/
def okOr {α : Type} (o : Option α) (e : Err) : Except Err α :=
  match o with
  | some a => .ok a
  | none => .error e

/-- `PRECISION_FACTOR` from allocation.rs: fixed-point scale `10^9`. -/
def PRECISION_FACTOR : Nat := 1000000000

/-- `AllocationRatio` from allocation.rs: a ratio scaled by `PRECISION_FACTOR`. -/
structure AllocationRatio where
  ratio : Nat
deriving DecidableEq, Repr

/-- `AllocationRatio::calculate` from allocation.rs. -/
def AllocationRatio.calculate (target_amount raised_amount : Nat) :
    Except Err AllocationRatio := do
  if raised_amount = 0 then
    throw .divisionByZero
  else
    let is_oversubscribed := raised_amount > target_amount
    if is_oversubscribed then
      let p ← okOr (checkedMul target_amount PRECISION_FACTOR) .mathOverflow
      let r ← okOr (checkedDiv p raised_amount) .divisionByZero
      return ⟨r⟩
    else
      return ⟨PRECISION_FACTOR⟩

/-- `AllocationRatio::apply_to_commitment` from allocation.rs:
returns `(allocated, refund)`. -/
def AllocationRatio.apply_to_commitment (self : AllocationRatio)
    (payment_token_committed : Nat) : Except Err (Nat × Nat) := do
  let m ← okOr (checkedMul payment_token_committed self.ratio) .mathOverflow
  let allocated ← okOr (checkedDiv m PRECISION_FACTOR) .divisionByZero
  let refund ← okOr (checkedSub payment_token_committed allocated) .mathUnderflow
  return (allocated, refund)

/-- `ClaimableAmounts` from allocation.rs. -/
structure ClaimableAmounts where
  sale_tokens : Nat
  refund_payment_tokens : Nat
  effective_payment_tokens : Nat
  allocation_ratio : AllocationRatio
deriving DecidableEq, Repr

/-- `calculate_claimable_amounts` from allocation.rs. -/
def calculate_claimable_amounts (user_committed bin_target bin_raised
    sale_token_price : Nat) : Except Err ClaimableAmounts := do
  let ratio ← AllocationRatio.calculate bin_target bin_raised
  let er ← ratio.apply_to_commitment user_committed
  let sale_tokens ← okOr (checkedDiv er.1 sale_token_price) .divisionByZero
  return { sale_tokens := sale_tokens
           refund_payment_tokens := er.2
           effective_payment_tokens := er.1
           allocation_ratio := ratio }

/-- `ClaimableAmounts::validate` from allocation.rs. -/
def ClaimableAmounts.validate (self : ClaimableAmounts)
    (original_commitment : Nat) : Except Err Unit := do
  let total ← okOr (checkedAdd self.effective_payment_tokens
    self.refund_payment_tokens) .mathOverflow
  if total ≠ original_commitment then
    throw .invalidCalculation
  else
    return ()

/-- `WithdrawAmounts` from allocation.rs. -/
structure WithdrawAmounts where
  payment_tokens_to_withdraw : Nat
  unsold_sale_tokens : Nat
  sale_tokens_sold : Nat
deriving DecidableEq, Repr

/-- `calculate_bin_withdraw_amounts` from allocation.rs. -/
def calculate_bin_withdraw_amounts (bin_payment_raised bin_sale_token_cap
    bin_sale_token_price : Nat) : Except Err WithdrawAmounts := do
  let total_sale_tokens_demanded ←
    okOr (checkedDiv bin_payment_raised bin_sale_token_price) .divisionByZero
  let sale_tokens_sold := min total_sale_tokens_demanded bin_sale_token_cap
  let payment_amount ←
    okOr (checkedMul sale_tokens_sold bin_sale_token_price) .mathOverflow
  let unsold_sale_tokens ←
    okOr (checkedSub bin_sale_token_cap sale_tokens_sold) .mathUnderflow
  return { payment_tokens_to_withdraw := payment_amount
           unsold_sale_tokens := unsold_sale_tokens
           sale_tokens_sold := sale_tokens_sold }

/-- `AuctionBin` from state.rs. -/
structure AuctionBin where
  sale_token_price : Nat
  sale_token_cap : Nat
  payment_token_raised : Nat
  sale_token_claimed : Nat
deriving DecidableEq, Repr

/-- `TotalWithdrawAmounts` from allocation.rs. -/
structure TotalWithdrawAmounts where
  total_payment_tokens : Nat
  total_unsold_sale_tokens : Nat
deriving DecidableEq, Repr

/-- The accumulation loop of `calculate_total_withdraw_amounts`
(allocation.rs): running totals are the two mutable locals. -/
def totalWithdrawGo (total_payment total_unsold : Nat) :
    List AuctionBin → Except Err TotalWithdrawAmounts
  | [] => .ok { total_payment_tokens := total_payment
                total_unsold_sale_tokens := total_unsold }
  | bin :: rest => do
    let bin_amounts ← calculate_bin_withdraw_amounts bin.payment_token_raised
      bin.sale_token_cap bin.sale_token_price
    let p ← okOr (checkedAdd total_payment bin_amounts.payment_tokens_to_withdraw)
      .mathOverflow
    let u ← okOr (checkedAdd total_unsold bin_amounts.unsold_sale_tokens)
      .mathOverflow
    totalWithdrawGo p u rest

/-- `calculate_total_withdraw_amounts` from allocation.rs. -/
def calculate_total_withdraw_amounts (bins : List AuctionBin) :
    Except Err TotalWithdrawAmounts :=
  totalWithdrawGo 0 0 bins

/-- `CommittedBin` from the variant of state.rs used by instructions.rs
(per-user per-bin ledger entry, including `payment_token_refunded`). -/
structure CommittedBin where
  bin_id : Nat
  payment_token_committed : Nat
  sale_token_claimed : Nat
  payment_token_refunded : Nat
deriving DecidableEq, Repr

/-- `check_all_bins_fully_claimed` from allocation.rs. -/
def check_all_bins_fully_claimed (committed_bins : List CommittedBin)
    (auction_bins : List AuctionBin) : Except Err Bool :=
  match committed_bins with
  | [] => .ok true
  | committed_bin :: rest => do
    let auction_bin ← okOr (auction_bins.get? committed_bin.bin_id) .invalidBinId
    let bin_target ← okOr (checkedMul auction_bin.sale_token_cap
      auction_bin.sale_token_price) .mathOverflow
    let claimable ← calculate_claimable_amounts committed_bin.payment_token_committed
      bin_target auction_bin.payment_token_raised auction_bin.sale_token_price
    let bin_fully_claimed :=
      committed_bin.sale_token_claimed ≥ claimable.sale_tokens ∧
      committed_bin.payment_token_refunded ≥ claimable.refund_payment_tokens
    if bin_fully_claimed then
      check_all_bins_fully_claimed rest auction_bins
    else
      .ok false

/-- `calculate_withdrawable_fees` from allocation.rs. -/
def calculate_withdrawable_fees (total_fees_collected total_fees_withdrawn : Nat) :
    Except Err Nat :=
  okOr (checkedSub total_fees_collected total_fees_withdrawn) .mathUnderflow

/-! ## State model (state.rs / extensions.rs / instructions.rs)

Accounts are modelled by value; asset transfers (`token::transfer`),
rent/lamport movement and event emission are external collaborators assumed
to succeed atomically with the state update, so they do not appear in the
state.  A failing operation returns `.error e` and, matching the host's
atomic-transaction semantics, leaves no partial mutation: the new state
exists only in the `.ok` constructor.  The single-auction model drops the
account addresses, PDA bumps and the `Committed.auction` back-reference,
which are enforced by PDA derivation in the source. -/

/-- Public keys, modelled as their 32 raw bytes. -/
abbrev Pubkey := List Nat

/-- `LAUNCHPAD_ADMIN` from consts.rs: the base58 key
`11111111111111111111111111111111`, i.e. 32 zero bytes. -/
def LAUNCHPAD_ADMIN : Pubkey := List.replicate 32 0

/-- `AuctionExtensions` from extensions.rs. -/
structure AuctionExtensions where
  whitelist_authority : Option Pubkey
  commit_cap_per_user : Option Nat
  claim_fee_rate : Option Nat
deriving DecidableEq, Repr

/-- `EmergencyState::PAUSE_AUCTION_COMMIT` (state.rs). -/
def PAUSE_AUCTION_COMMIT : Nat := 1

/-- `EmergencyState::PAUSE_AUCTION_CLAIM` (state.rs). -/
def PAUSE_AUCTION_CLAIM : Nat := 2

/-- `EmergencyState::PAUSE_AUCTION_WITHDRAW_FEES` (state.rs). -/
def PAUSE_AUCTION_WITHDRAW_FEES : Nat := 4

/-- `EmergencyState::PAUSE_AUCTION_WITHDRAW_FUNDS` (state.rs). -/
def PAUSE_AUCTION_WITHDRAW_FUNDS : Nat := 8

/-- Modelled from the spec: instructions.rs references
`EmergencyState::PAUSE_AUCTION_UPDATION` (the admin-update flag of the §4.5
bitmask), but the constant itself is missing from state.rs in src/;
following the flag sequence it is the next bit, `1 << 4`. -/
def PAUSE_AUCTION_UPDATION : Nat := 16

/-- `EmergencyState` from state.rs: a pause bitmask. -/
structure EmergencyState where
  paused_operations : Nat
deriving DecidableEq, Repr

/-- `EmergencyState::is_paused` from state.rs. -/
def EmergencyState.is_paused (s : EmergencyState) (operation_flag : Nat) : Bool :=
  s.paused_operations &&& operation_flag != 0

/-- `Auction` from state.rs, with the extra fields used by instructions.rs
(`unsold_sale_tokens_and_effective_payment_tokens_withdrawn`,
`total_fees_collected`, `total_fees_withdrawn`). -/
structure Auction where
  authority : Pubkey
  custody : Pubkey
  commit_start_time : Int
  commit_end_time : Int
  claim_start_time : Int
  bins : List AuctionBin
  extensions : AuctionExtensions
  total_participants : Nat
  unsold_sale_tokens_and_effective_payment_tokens_withdrawn : Bool
  total_fees_collected : Nat
  total_fees_withdrawn : Nat
  emergency_state : EmergencyState
deriving DecidableEq, Repr

/-- `check_emergency_state` from state.rs. -/
def check_emergency_state (auction : Auction) (operation_flag : Nat) :
    Except Err Unit :=
  if auction.emergency_state.is_paused operation_flag then
    .error .operationPaused
  else
    .ok ()

/-- `Auction::get_bin` from state.rs (`bins.get(bin_id)`). -/
def Auction.get_bin (a : Auction) (bin_id : Nat) : Except Err AuctionBin :=
  okOr (a.bins.get? bin_id) .invalidBinId

/-- `Committed` from the variant of state.rs used by instructions.rs
(per-user ledger account, including the replay `nonce`). -/
structure Committed where
  user : Pubkey
  bins : List CommittedBin
  nonce : Nat
deriving DecidableEq, Repr

/-- First ledger entry with the given `bin_id`
(`Committed::find_bin` from state.rs). -/
def findBin : List CommittedBin → Nat → Option CommittedBin
  | [], _ => none
  | cb :: rest, b => if cb.bin_id = b then some cb else findBin rest b

/-- `Committed::find_bin` from state.rs. -/
def Committed.find_bin (c : Committed) (bin_id : Nat) : Option CommittedBin :=
  findBin c.bins bin_id

/-- `Committed::total_payment_committed` from state.rs. -/
def Committed.total_payment_committed (c : Committed) : Nat :=
  (c.bins.map (fun b => b.payment_token_committed)).sum

/-- `AuctionExtensions::is_whitelist_enabled` from extensions.rs. -/
def AuctionExtensions.is_whitelist_enabled (e : AuctionExtensions) : Bool :=
  e.whitelist_authority.isSome

/-- `AuctionExtensions::check_commit_cap_exceeded` from extensions.rs
(the addition is unchecked in the source). -/
def AuctionExtensions.check_commit_cap_exceeded (e : AuctionExtensions)
    (committed : Committed) (additional_payment : Nat) : Except Err Unit :=
  match e.commit_cap_per_user with
  | some commit_cap =>
      if committed.total_payment_committed + additional_payment ≤ commit_cap then
        .ok ()
      else
        .error .commitCapExceeded
  | none => .ok ()

/-- `AuctionExtensions::calculate_claim_fee` from extensions.rs: the fee is
computed in `u128` and truncated back to `u64` by an `as u64` cast. -/
def AuctionExtensions.calculate_claim_fee (e : AuctionExtensions)
    (sale_token_claimed : Nat) : Nat :=
  match e.claim_fee_rate with
  | some fee_rate => sale_token_claimed * fee_rate / 10000 % U64MOD
  | none => 0

/-- An instruction visible through the instructions sysvar, as far as the
Ed25519 introspection in extensions.rs reads it: a program id and raw data. -/
structure Ed25519Ix where
  program_id : Nat
  data : List Nat
deriving DecidableEq, Repr

/-- Distinguished tag standing for `ed25519_program::ID`. -/
def ed25519ProgramId : Nat := 1

/-- Little-endian byte encoding on `k` bytes (borsh integer encoding). -/
def leBytes : Nat → Nat → List Nat
  | 0, _ => []
  | k + 1, n => n % 256 :: leBytes k (n / 256)

/-- borsh `u64` encoding: 8 little-endian bytes. -/
def u64le (n : Nat) : List Nat := leBytes 8 n

/-- borsh (`AnchorSerialize`) encoding of `WhitelistPayload` from
extensions.rs: `user (32) ++ auction (32) ++ bin_id (1) ++
payment_token_committed (8 LE) ++ nonce (8 LE) ++ expiry (8 LE)`. -/
def serializeWhitelistPayload (user auction : Pubkey)
    (bin_id payment_token_committed nonce expiry : Nat) : List Nat :=
  user ++ auction ++ [bin_id % 256] ++ u64le payment_token_committed ++
    u64le nonce ++ u64le expiry

/-- Rust `i64 as u64` (used on `Clock::get()?.unix_timestamp`). -/
def u64ofI64 (t : Int) : Nat := (t % (2 ^ 64 : Int)).toNat

/-- `AuctionExtensions::verify_whitelist_signature` from extensions.rs.
`ix` is the instruction loaded at index 0 of the sysvar (a failing
`load_instruction_at_checked`, like a missing sysvar account, surfaces as
`MissingSysvarInstructions` before this function's body runs). -/
def AuctionExtensions.verify_whitelist_signature (e : AuctionExtensions)
    (ix : Ed25519Ix) (user auction : Pubkey)
    (bin_id payment_token_committed current_nonce expiry : Nat)
    (now : Int) : Except Err Unit := do
  let whitelist_authority := e.whitelist_authority.getD []
  if ix.program_id ≠ ed25519ProgramId then
    throw .wrongProgram
  else if ix.data.length < 1 + 64 + 32 + 2 + 2 then
    throw .malformedEd25519Ix
  else if ix.data.getD 0 0 ≠ 1 then
    throw .malformedEd25519Ix
  else
    let public_key := (ix.data.drop (1 + 64)).take 32
    if public_key ≠ whitelist_authority then
      throw .wrongWhitelistAuthority
    else
      let message := ix.data.drop (1 + 64 + 32 + 4)
      let expected_message := serializeWhitelistPayload user auction bin_id
        payment_token_committed current_nonce expiry
      if message ≠ expected_message then
        throw .payloadMismatch
      else if ¬u64ofI64 now ≤ expiry then
        throw .signatureExpired
      else
        return ()

/-- Modelled from the spec: `AuctionExtensions::verify_signature_authorization`
is called by instructions.rs (custody-signature gate) but its body is missing
from src/; per §4.6 it is the identical canonical-payload mechanism as the
whitelist gate with the supplied signer key substituted for the whitelist
key. -/
def verify_signature_authorization (ix : Ed25519Ix) (user auction : Pubkey)
    (bin_id payment_token_committed current_nonce expiry : Nat)
    (now : Int) (expected_signer : Pubkey) : Except Err Unit := do
  if ix.program_id ≠ ed25519ProgramId then
    throw .wrongProgram
  else if ix.data.length < 1 + 64 + 32 + 2 + 2 then
    throw .malformedEd25519Ix
  else if ix.data.getD 0 0 ≠ 1 then
    throw .malformedEd25519Ix
  else
    let public_key := (ix.data.drop (1 + 64)).take 32
    if public_key ≠ expected_signer then
      throw .wrongWhitelistAuthority
    else
      let message := ix.data.drop (1 + 64 + 32 + 4)
      let expected_message := serializeWhitelistPayload user auction bin_id
        payment_token_committed current_nonce expiry
      if message ≠ expected_message then
        throw .payloadMismatch
      else if ¬u64ofI64 now ≤ expiry then
        throw .signatureExpired
      else
        return ()

/-- Whole-engine state: the auction account plus every live `Committed`
ledger account, keyed by user. -/
structure LaunchpadState where
  auction : Auction
  users : List (Pubkey × Committed)
deriving DecidableEq, Repr

/-- The `Committed` account of a user, if it exists (PDA lookup). -/
def lookupUser : List (Pubkey × Committed) → Pubkey → Option Committed
  | [], _ => none
  | p :: rest, u => if p.1 = u then some p.2 else lookupUser rest u

/-- Store a user's `Committed` account (overwriting the existing record, or
appending a newly created one). -/
def setUser : List (Pubkey × Committed) → Pubkey → Committed →
    List (Pubkey × Committed)
  | [], u, c => [(u, c)]
  | p :: rest, u, c => if p.1 = u then (u, c) :: rest else p :: setUser rest u c

/-- Destroy a user's `Committed` account (the claim-path account closure). -/
def removeUser : List (Pubkey × Committed) → Pubkey → List (Pubkey × Committed)
  | [], _ => []
  | p :: rest, u => if p.1 = u then rest else p :: removeUser rest u

/-- `AuctionBinParams` from state.rs. -/
structure AuctionBinParams where
  sale_token_price : Nat
  sale_token_cap : Nat
deriving DecidableEq, Repr

/-- `init_auction` from instructions.rs. -/
def init_auction (authority : Pubkey) (now : Int)
    (commit_start_time commit_end_time claim_start_time : Int)
    (bins : List AuctionBinParams) (custody : Pubkey)
    (extensions : AuctionExtensions) : Except Err LaunchpadState :=
  if authority ≠ LAUNCHPAD_ADMIN then
    .error .onlyLaunchpadAdmin
  else if ¬(now ≤ commit_start_time ∧ commit_start_time ≤ commit_end_time ∧
      commit_end_time ≤ claim_start_time) then
    .error .invalidAuctionTimeRange
  else if ¬(1 ≤ bins.length ∧ bins.length ≤ 10) then
    .error .invalidAuctionBinsLength
  else if ¬(∀ bin ∈ bins, bin.sale_token_price > 0 ∧ bin.sale_token_cap > 0) then
    .error .invalidAuctionBinsPriceOrCap
  else if (match extensions.claim_fee_rate with
      | some rate => decide (rate > 0)
      | none => true) = false then
    .error .noClaimFeesConfigured
  else
    .ok { auction :=
            { authority := LAUNCHPAD_ADMIN
              custody := custody
              commit_start_time := commit_start_time
              commit_end_time := commit_end_time
              claim_start_time := claim_start_time
              bins := bins.map (fun params =>
                { sale_token_price := params.sale_token_price
                  sale_token_cap := params.sale_token_cap
                  payment_token_raised := 0
                  sale_token_claimed := 0 })
              extensions := extensions
              total_participants := 0
              unsold_sale_tokens_and_effective_payment_tokens_withdrawn := false
              total_fees_collected := 0
              total_fees_withdrawn := 0
              emergency_state := ⟨0⟩ }
          users := [] }

/-- `check_custody_authorization` from instructions.rs. -/
def check_custody_authorization (s : LaunchpadState) (user auction_key : Pubkey)
    (bin_id payment_token_committed expiry : Nat) (now : Int)
    (custody_authority : Option Pubkey) (sysvar : Option Ed25519Ix)
    (current_nonce : Nat) : Except Err Bool := do
  if user = s.auction.custody then
    return true
  else
    match custody_authority with
    | some ca =>
        if ca ≠ s.auction.custody then
          throw .invalidCustodyAuthority
        else
          match sysvar with
          | some ix => do
              verify_signature_authorization ix user auction_key bin_id
                payment_token_committed current_nonce expiry now ca
              return true
          | none => return false
    | none => return false

/-- The `find_bin_mut` / `checked_add` / `push` update of the user's
committed bins inside `commit` (instructions.rs). -/
def commitBumpBins : List CommittedBin → Nat → Nat →
    Except Err (List CommittedBin)
  | [], bin_id, amount =>
      .ok [{ bin_id := bin_id
             payment_token_committed := amount
             sale_token_claimed := 0
             payment_token_refunded := 0 }]
  | cb :: rest, bin_id, amount =>
      if cb.bin_id = bin_id then do
        let v ← okOr (checkedAdd cb.payment_token_committed amount) .mathOverflow
        .ok ({ cb with payment_token_committed := v } :: rest)
      else do
        let r ← commitBumpBins rest bin_id amount
        .ok (cb :: r)

/-- `commit` from instructions.rs.  `auction_key` is the auction account's
address as it appears in the signed payload; `sysvar` is the instruction at
index 0 of the instructions sysvar (`none` when the sysvar account is absent
or holds no instruction). -/
def commit (s : LaunchpadState) (user : Pubkey)
    (bin_id payment_token_committed expiry : Nat) (now : Int)
    (auction_key : Pubkey) (custody_authority : Option Pubkey)
    (sysvar : Option Ed25519Ix) : Except Err LaunchpadState := do
  check_emergency_state s.auction PAUSE_AUCTION_COMMIT
  if ¬(s.auction.commit_start_time ≤ now ∧ now ≤ s.auction.commit_end_time) then
    throw .outOfCommitmentPeriod
  else if payment_token_committed = 0 then
    throw .invalidCommitmentAmount
  else do
    let _ ← s.auction.get_bin bin_id
    let committed0 := (lookupUser s.users user).getD
      { user := user, bins := [], nonce := 0 }
    let is_custody_authorized ← check_custody_authorization s user auction_key
      bin_id payment_token_committed expiry now custody_authority sysvar
      committed0.nonce
    let _extension_gates ←
      (if ¬is_custody_authorized then do
        s.auction.extensions.check_commit_cap_exceeded committed0
          payment_token_committed
        if s.auction.extensions.is_whitelist_enabled then
          match sysvar with
          | none => throw .missingSysvarInstructions
          | some ix =>
              s.auction.extensions.verify_whitelist_signature ix user
                auction_key bin_id payment_token_committed committed0.nonce
                expiry now
        else
          pure ()
      else
        pure ())
    let is_new_participant := committed0.bins.isEmpty
    let bins1 ← commitBumpBins committed0.bins bin_id payment_token_committed
    let total_participants1 ←
      (if is_new_participant then
        okOr (checkedAdd s.auction.total_participants 1) .mathOverflow
      else
        pure s.auction.total_participants)
    let bin ← s.auction.get_bin bin_id
    let bins' := s.auction.bins.set bin_id
      { bin with payment_token_raised :=
          bin.payment_token_raised + payment_token_committed }
    let nonce1 ← okOr (checkedAdd committed0.nonce 1) .nonceOverflow
    .ok { auction := { s.auction with
            bins := bins'
            total_participants := total_participants1 }
          users := setUser s.users user
            { user := user, bins := bins1, nonce := nonce1 } }

/-- The in-place `payment_token_committed -=` update of `decrease_commit`. -/
def decreaseBins : List CommittedBin → Nat → Nat → List CommittedBin
  | [], _, _ => []
  | cb :: rest, bin_id, amount =>
      if cb.bin_id = bin_id then
        { cb with payment_token_committed :=
            cb.payment_token_committed - amount } :: rest
      else
        cb :: decreaseBins rest bin_id amount

/-- `decrease_commit` from instructions.rs. -/
def decrease_commit (s : LaunchpadState) (user : Pubkey)
    (bin_id payment_token_reverted : Nat) (now : Int) :
    Except Err LaunchpadState := do
  check_emergency_state s.auction PAUSE_AUCTION_COMMIT
  if ¬(s.auction.commit_start_time ≤ now ∧ now ≤ s.auction.commit_end_time) then
    throw .outOfCommitmentPeriod
  else if payment_token_reverted = 0 then
    throw .invalidCommitmentAmount
  else do
    let committed ← okOr (lookupUser s.users user) .missingAccount
    let committed_bin ← okOr (committed.find_bin bin_id) .invalidBinId
    if ¬committed_bin.payment_token_committed ≥ payment_token_reverted then
      throw .invalidCommitmentAmount
    else do
      let bins1 := decreaseBins committed.bins bin_id payment_token_reverted
      let bin ← s.auction.get_bin bin_id
      let bins' := s.auction.bins.set bin_id
        { bin with payment_token_raised :=
            bin.payment_token_raised - payment_token_reverted }
      .ok { auction := { s.auction with bins := bins' }
            users := setUser s.users user { committed with bins := bins1 } }

/-- The in-place `sale_token_claimed +=` update of `claim`. -/
def claimBumpSale : List CommittedBin → Nat → Nat → List CommittedBin
  | [], _, _ => []
  | cb :: rest, bin_id, amount =>
      if cb.bin_id = bin_id then
        { cb with sale_token_claimed := cb.sale_token_claimed + amount } :: rest
      else
        cb :: claimBumpSale rest bin_id amount

/-- The in-place `payment_token_refunded +=` update of `claim`. -/
def claimBumpRefund : List CommittedBin → Nat → Nat → List CommittedBin
  | [], _, _ => []
  | cb :: rest, bin_id, amount =>
      if cb.bin_id = bin_id then
        { cb with payment_token_refunded :=
            cb.payment_token_refunded + amount } :: rest
      else
        cb :: claimBumpRefund rest bin_id amount

/-- `claim` from instructions.rs. -/
def claim (s : LaunchpadState) (user : Pubkey)
    (bin_id sale_token_to_claim payment_token_to_refund : Nat) (now : Int) :
    Except Err LaunchpadState := do
  check_emergency_state s.auction PAUSE_AUCTION_CLAIM
  if ¬s.auction.claim_start_time ≤ now then
    throw .outOfClaimPeriod
  else if sale_token_to_claim = 0 ∧ payment_token_to_refund = 0 then
    throw .invalidClaimAmount
  else do
    let committed ← okOr (lookupUser s.users user) .missingAccount
    if committed.user ≠ user then
      throw .unauthorized
    else do
      let claim_fee := s.auction.extensions.calculate_claim_fee
        sale_token_to_claim
      let committed_bin ← okOr (committed.find_bin bin_id) .invalidBinId
      let bin ← s.auction.get_bin bin_id
      let bin_target ← okOr (checkedMul bin.sale_token_cap
        bin.sale_token_price) .mathOverflow
      let claimable ← calculate_claimable_amounts
        committed_bin.payment_token_committed bin_target
        bin.payment_token_raised bin.sale_token_price
      claimable.validate committed_bin.payment_token_committed
      let total_sale_tokens_entitled := claimable.sale_tokens
      let total_payment_refund_entitled := claimable.refund_payment_tokens
      let remaining_sale_tokens :=
        total_sale_tokens_entitled - committed_bin.sale_token_claimed
      let remaining_payment_refund :=
        total_payment_refund_entitled - committed_bin.payment_token_refunded
      if ¬(sale_token_to_claim ≤ remaining_sale_tokens ∧
          payment_token_to_refund ≤ remaining_payment_refund) then
        throw .invalidClaimAmount
      else do
        let cbins1 :=
          if sale_token_to_claim > 0 then
            claimBumpSale committed.bins bin_id sale_token_to_claim
          else
            committed.bins
        let abins1 :=
          if sale_token_to_claim > 0 then
            s.auction.bins.set bin_id
              { bin with sale_token_claimed :=
                  bin.sale_token_claimed + sale_token_to_claim }
          else
            s.auction.bins
        let fees1 :=
          if sale_token_to_claim > 0 ∧ claim_fee > 0 then
            s.auction.total_fees_collected + claim_fee
          else
            s.auction.total_fees_collected
        let cbins2 :=
          if payment_token_to_refund > 0 then
            claimBumpRefund cbins1 bin_id payment_token_to_refund
          else
            cbins1
        let new_sale_claimed :=
          if sale_token_to_claim > 0 then
            committed_bin.sale_token_claimed + sale_token_to_claim
          else
            committed_bin.sale_token_claimed
        let current_bin_fully_claimed :=
          new_sale_claimed ≥ total_sale_tokens_entitled ∧
          payment_token_to_refund ≥ remaining_payment_refund
        let all_bins_fully_claimed ←
          (if current_bin_fully_claimed then
            check_all_bins_fully_claimed cbins2 abins1
          else
            pure false)
        let auction1 := { s.auction with
          bins := abins1
          total_fees_collected := fees1 }
        if all_bins_fully_claimed then
          .ok { auction := auction1, users := removeUser s.users user }
        else
          .ok { auction := auction1
                users := setUser s.users user { committed with bins := cbins2 } }

/-- `withdraw_funds` from instructions.rs.  The leading authority test is
Anchor's `has_one = authority` account constraint; the body repeats it as an
explicit `require_keys_eq`. -/
def withdraw_funds (s : LaunchpadState) (authority : Pubkey) (now : Int) :
    Except Err LaunchpadState := do
  if authority ≠ s.auction.authority then
    throw .unauthorized
  else do
    check_emergency_state s.auction PAUSE_AUCTION_WITHDRAW_FUNDS
    if s.auction.unsold_sale_tokens_and_effective_payment_tokens_withdrawn then
      throw .doubleFundsWithdrawal
    else if ¬now > s.auction.commit_end_time then
      throw .inCommitmentPeriod
    else if authority ≠ s.auction.authority then
      throw .unauthorized
    else do
      let _total ← calculate_total_withdraw_amounts s.auction.bins
      .ok { s with auction := { s.auction with
        unsold_sale_tokens_and_effective_payment_tokens_withdrawn := true } }

/-- `withdraw_fees` from instructions.rs (authority via Anchor's
`has_one = authority`). -/
def withdraw_fees (s : LaunchpadState) (authority : Pubkey) (now : Int) :
    Except Err LaunchpadState := do
  if authority ≠ s.auction.authority then
    throw .unauthorized
  else do
    check_emergency_state s.auction PAUSE_AUCTION_WITHDRAW_FEES
    if ¬now > s.auction.commit_end_time then
      throw .inCommitmentPeriod
    else do
      let fees_to_withdraw ← calculate_withdrawable_fees
        s.auction.total_fees_collected s.auction.total_fees_withdrawn
      if fees_to_withdraw > 0 then
        .ok { s with auction := { s.auction with
          total_fees_withdrawn :=
            s.auction.total_fees_withdrawn + fees_to_withdraw } }
      else
        .ok s

/-- `set_price` from instructions.rs (authority via Anchor's
`has_one = authority`). -/
def set_price (s : LaunchpadState) (authority : Pubkey)
    (bin_id new_price : Nat) : Except Err LaunchpadState := do
  if authority ≠ s.auction.authority then
    throw .unauthorized
  else do
    check_emergency_state s.auction PAUSE_AUCTION_UPDATION
    if ¬new_price > 0 then
      throw .invalidAuctionBinsPriceOrCap
    else do
      let bin ← s.auction.get_bin bin_id
      .ok { s with auction := { s.auction with
        bins := s.auction.bins.set bin_id
          { bin with sale_token_price := new_price } } }

/-- `emergency_control` from instructions.rs: rebuilds the whole pause mask
from the supplied flags (authority via Anchor's
`has_one = authority @ OnlyLaunchpadAdmin`). -/
def emergency_control (s : LaunchpadState) (authority : Pubkey)
    (pause_auction_commit pause_auction_claim pause_auction_withdraw_fees
      pause_auction_withdraw_funds pause_auction_updation : Bool) :
    Except Err LaunchpadState :=
  if authority ≠ s.auction.authority then
    .error .onlyLaunchpadAdmin
  else
    let m1 := if pause_auction_commit then PAUSE_AUCTION_COMMIT else 0
    let m2 := if pause_auction_claim then m1 ||| PAUSE_AUCTION_CLAIM else m1
    let m3 := if pause_auction_withdraw_fees then
        m2 ||| PAUSE_AUCTION_WITHDRAW_FEES else m2
    let m4 := if pause_auction_withdraw_funds then
        m3 ||| PAUSE_AUCTION_WITHDRAW_FUNDS else m3
    let m5 := if pause_auction_updation then
        m4 ||| PAUSE_AUCTION_UPDATION else m4
    .ok { s with auction := { s.auction with emergency_state := ⟨m5⟩ } }

/-- One caller-facing operation together with its arguments and the
externally supplied clock value. -/
inductive Op where
  | opCommit (user : Pubkey) (bin_id amount expiry : Nat) (now : Int)
      (auction_key : Pubkey) (custody_authority : Option Pubkey)
      (sysvar : Option Ed25519Ix)
  | opDecreaseCommit (user : Pubkey) (bin_id amount : Nat) (now : Int)
  | opClaim (user : Pubkey) (bin_id sale refund : Nat) (now : Int)
  | opWithdrawFunds (authority : Pubkey) (now : Int)
  | opWithdrawFees (authority : Pubkey) (now : Int)
  | opSetPrice (authority : Pubkey) (bin_id new_price : Nat)
  | opEmergencyControl (authority : Pubkey) (p1 p2 p3 p4 p5 : Bool)

/-- Dispatch one operation. -/
def step (s : LaunchpadState) : Op → Except Err LaunchpadState
  | .opCommit user bin_id amount expiry now auction_key custody_authority
      sysvar =>
      commit s user bin_id amount expiry now auction_key custody_authority
        sysvar
  | .opDecreaseCommit user bin_id amount now =>
      decrease_commit s user bin_id amount now
  | .opClaim user bin_id sale refund now => claim s user bin_id sale refund now
  | .opWithdrawFunds authority now => withdraw_funds s authority now
  | .opWithdrawFees authority now => withdraw_fees s authority now
  | .opSetPrice authority bin_id new_price =>
      set_price s authority bin_id new_price
  | .opEmergencyControl authority p1 p2 p3 p4 p5 =>
      emergency_control s authority p1 p2 p3 p4 p5

/-- States reachable from a successful `init_auction` by successful
operations. -/
inductive Reachable : LaunchpadState → Prop
  | init (authority : Pubkey) (now commit_start_time commit_end_time
      claim_start_time : Int) (bins : List AuctionBinParams) (custody : Pubkey)
      (extensions : AuctionExtensions) (s : LaunchpadState) :
      init_auction authority now commit_start_time commit_end_time
        claim_start_time bins custody extensions = .ok s →
      Reachable s
  | step (s : LaunchpadState) (op : Op) (s' : LaunchpadState) :
      Reachable s → step s op = .ok s' → Reachable s'

/-- Reachability along runs in which no `Committed` ledger account is ever
destroyed (the claim-path account closure on full settlement is the only
operation that destroys one). -/
inductive ReachableNC : LaunchpadState → Prop
  | init (authority : Pubkey) (now commit_start_time commit_end_time
      claim_start_time : Int) (bins : List AuctionBinParams) (custody : Pubkey)
      (extensions : AuctionExtensions) (s : LaunchpadState) :
      init_auction authority now commit_start_time commit_end_time
        claim_start_time bins custody extensions = .ok s →
      ReachableNC s
  | step (s : LaunchpadState) (op : Op) (s' : LaunchpadState) :
      ReachableNC s → step s op = .ok s' →
      (∀ u : Pubkey, (lookupUser s.users u).isSome →
        (lookupUser s'.users u).isSome) →
      ReachableNC s'

/-- Payment committed to bin `b` in a ledger-entry list (first matching
entry, 0 when none exists). -/
def listCommitted (bins : List CommittedBin) (b : Nat) : Nat :=
  match findBin bins b with
  | some cb => cb.payment_token_committed
  | none => 0

/-- A user's committed payment in a bin (0 when no entry exists). -/
def committedInBin (c : Committed) (b : Nat) : Nat :=
  listCommitted c.bins b

/-- Sum over a ledger-account list of the payment committed to bin `b`. -/
def sumCommittedList (users : List (Pubkey × Committed)) (b : Nat) : Nat :=
  (users.map (fun p => committedInBin p.2 b)).sum

/-- Sum over all live ledger accounts of the payment committed to bin `b`. -/
def sumCommitted (s : LaunchpadState) (b : Nat) : Nat :=
  sumCommittedList s.users b

/-- The ledger-account list has pairwise distinct user keys (true in every
reachable state: accounts are PDAs keyed by user). -/
def NodupKeys (users : List (Pubkey × Committed)) : Prop :=
  users.Pairwise (fun p q => p.1 ≠ q.1)

/-- Little-endian byte decoding, inverse to `leBytes`. -/
def decodeLe : List Nat → Nat
  | [] => 0
  | byte :: rest => byte + 256 * decodeLe rest

/-- `payment_token_raised` of the bin at index `b` (0 when absent). -/
def raisedAt (bins : List AuctionBin) (b : Nat) : Nat :=
  match bins.get? b with
  | some bin => bin.payment_token_raised
  | none => 0

/-- `sale_token_price` of the bin at index `b` (0 when absent). -/
def priceAt (bins : List AuctionBin) (b : Nat) : Nat :=
  match bins.get? b with
  | some bin => bin.sale_token_price
  | none => 0

/-- `payment_token_raised` of bin `b` (0 when the bin does not exist). -/
def binRaised (s : LaunchpadState) (b : Nat) : Nat :=
  raisedAt s.auction.bins b

/-- `sale_token_price` of bin `b` (0 when the bin does not exist). -/
def binPrice (s : LaunchpadState) (b : Nat) : Nat :=
  priceAt s.auction.bins b

/-- Spec-side `sold` of §4.3: `min(demanded, capacity)` with
`demanded = raised / price`. -/
def binSoldSpec (b : AuctionBin) : Nat :=
  min (b.payment_token_raised / b.sale_token_price) b.sale_token_cap

/-- Spec-side `payment_due` of §4.3: `sold * price`. -/
def binPaymentSpec (b : AuctionBin) : Nat :=
  binSoldSpec b * b.sale_token_price

/-- Spec-side `unsold` of §4.3: `capacity - sold`. -/
def binUnsoldSpec (b : AuctionBin) : Nat :=
  b.sale_token_cap - binSoldSpec b

/-- A bin on which the per-bin withdrawal computation succeeds: nonzero
price and representable `sold * price`. -/
def binWithdrawOk (b : AuctionBin) : Prop :=
  b.sale_token_price ≠ 0 ∧ binPaymentSpec b < U64MOD

/-- Spec-side aggregate payment over all bins. -/
def sumPaymentSpec (bins : List AuctionBin) : Nat :=
  (bins.map binPaymentSpec).sum

/-- Spec-side aggregate unsold inventory over all bins. -/
def sumUnsoldSpec (bins : List AuctionBin) : Nat :=
  (bins.map binUnsoldSpec).sum

/-- Concrete user key for the worked traces. -/
def cexUser : Pubkey := [1]

/-- Concrete custody key for the worked traces (distinct from `cexUser`). -/
def cexCustody : Pubkey := [2]

/-- Extension set with every optional feature disabled. -/
def cexExt : AuctionExtensions :=
  { whitelist_authority := none
    commit_cap_per_user := none
    claim_fee_rate := none }

/-- State produced by `init_auction` with one bin of price 10, capacity 200,
commit window `[0, 100]`, claim start 100. -/
def cexS0 : LaunchpadState :=
  { auction :=
      { authority := LAUNCHPAD_ADMIN
        custody := cexCustody
        commit_start_time := 0
        commit_end_time := 100
        claim_start_time := 100
        bins := [{ sale_token_price := 10
                   sale_token_cap := 200
                   payment_token_raised := 0
                   sale_token_claimed := 0 }]
        extensions := cexExt
        total_participants := 0
        unsold_sale_tokens_and_effective_payment_tokens_withdrawn := false
        total_fees_collected := 0
        total_fees_withdrawn := 0
        emergency_state := ⟨0⟩ }
    users := [] }

/-- State after `cexUser` commits 1000 payment tokens to bin 0 at time 50. -/
def cexS1 : LaunchpadState :=
  { auction :=
      { authority := LAUNCHPAD_ADMIN
        custody := cexCustody
        commit_start_time := 0
        commit_end_time := 100
        claim_start_time := 100
        bins := [{ sale_token_price := 10
                   sale_token_cap := 200
                   payment_token_raised := 1000
                   sale_token_claimed := 0 }]
        extensions := cexExt
        total_participants := 1
        unsold_sale_tokens_and_effective_payment_tokens_withdrawn := false
        total_fees_collected := 0
        total_fees_withdrawn := 0
        emergency_state := ⟨0⟩ }
    users := [(cexUser,
      { user := cexUser
        bins := [{ bin_id := 0
                   payment_token_committed := 1000
                   sale_token_claimed := 0
                   payment_token_refunded := 0 }]
        nonce := 1 })] }

/-- State after the admin re-prices bin 0 to 99 on `cexS1`. -/
def c9S2 : LaunchpadState :=
  { auction :=
      { authority := LAUNCHPAD_ADMIN
        custody := cexCustody
        commit_start_time := 0
        commit_end_time := 100
        claim_start_time := 100
        bins := [{ sale_token_price := 99
                   sale_token_cap := 200
                   payment_token_raised := 1000
                   sale_token_claimed := 0 }]
        extensions := cexExt
        total_participants := 1
        unsold_sale_tokens_and_effective_payment_tokens_withdrawn := false
        total_fees_collected := 0
        total_fees_withdrawn := 0
        emergency_state := ⟨0⟩ }
    users := [(cexUser,
      { user := cexUser
        bins := [{ bin_id := 0
                   payment_token_committed := 1000
                   sale_token_claimed := 0
                   payment_token_refunded := 0 }]
        nonce := 1 })] }

/-- State after `cexUser` claims the full entitlement (100 sale tokens, no
refund) on `cexS1` at time 100: the ledger account is destroyed while the
bin still records `payment_token_raised = 1000`. -/
def c7S2 : LaunchpadState :=
  { auction :=
      { authority := LAUNCHPAD_ADMIN
        custody := cexCustody
        commit_start_time := 0
        commit_end_time := 100
        claim_start_time := 100
        bins := [{ sale_token_price := 10
                   sale_token_cap := 200
                   payment_token_raised := 1000
                   sale_token_claimed := 100 }]
        extensions := cexExt
        total_participants := 1
        unsold_sale_tokens_and_effective_payment_tokens_withdrawn := false
        total_fees_collected := 0
        total_fees_withdrawn := 0
        emergency_state := ⟨0⟩ }
    users := [] }

/-- Concrete whitelist-authority key for the replay witness. -/
def c6WlAuthority : Pubkey := List.replicate 32 7

/-- Extension set with only the whitelist gate enabled. -/
def c6Ext : AuctionExtensions :=
  { whitelist_authority := some c6WlAuthority
    commit_cap_per_user := none
    claim_fee_rate := none }

/-- Auction address used in the replay witness payload. -/
def c6AuctionKey : Pubkey := List.replicate 32 9

/-- Canonical payload bytes signed for the replay witness: user `cexUser`,
bin 0, amount 1000, nonce 0, expiry 50. -/
def c6Payload : List Nat :=
  serializeWhitelistPayload cexUser c6AuctionKey 0 1000 0 50

/-- Well-formed Ed25519 verification instruction carrying `c6Payload`:
one signature, 64 signature bytes, the whitelist authority's key, 4 offset
bytes, then the signed message. -/
def c6Ix : Ed25519Ix :=
  { program_id := ed25519ProgramId
    data := 1 :: (List.replicate 64 0 ++
      (c6WlAuthority ++ ([0, 0, 0, 0] ++ c6Payload))) }

/-! ## Theorems -/

/-- The fixed-point scale is nonzero, so the division by `PRECISION_FACTOR`
inside `apply_to_commitment` can never raise `DivisionByZero`. -/
theorem PF_ne_zero : ¬PRECISION_FACTOR = 0 := by decide

/-- Ratios returned by `AllocationRatio.calculate` are `≤ PRECISION_FACTOR`. -/
theorem calculate_ratio_le (target raised : Nat) (r : AllocationRatio)
    (h : AllocationRatio.calculate target raised = .ok r) :
    r.ratio ≤ PRECISION_FACTOR := by
  unfold AllocationRatio.calculate okOr checkedMul checkedDiv at h
  by_cases h0 : raised = 0
  · simp [h0] at h
  · by_cases hov : raised > target
    · by_cases hm : target * PRECISION_FACTOR < U64MOD
      · simp only [h0, hov, hm, if_true, if_false, if_neg h0] at h
        simp only [bind, Except.bind, pure, Except.pure] at h
        cases h
        exact Nat.div_le_of_le_mul
          (Nat.mul_le_mul_right _ (Nat.le_of_lt hov))
      · simp [h0, hov, hm, bind, Except.bind] at h
    · simp only [h0, hov, if_false, if_neg h0] at h
      simp only [bind, Except.bind, pure, Except.pure] at h
      cases h
      exact Nat.le_refl _

/-- C1: `AllocationRatio::calculate(target, raised)` fails with `DivisionByZero`
iff `raised == 0`; for `raised ≠ 0` and `raised ≤ target` it returns the full
ratio `PRECISION_FACTOR = 10^9`; for `raised > target` it returns
`target * 10^9 / raised` (truncated), failing with `MathOverflow` exactly when
`target * 10^9` does not fit in a `u64`. -/
theorem C1_calculate_contract (target raised : Nat) :
    (AllocationRatio.calculate target raised = .error .divisionByZero ↔ raised = 0) ∧
    (raised ≠ 0 → raised ≤ target →
      AllocationRatio.calculate target raised = .ok ⟨PRECISION_FACTOR⟩) ∧
    (raised > target →
      (target * PRECISION_FACTOR < U64MOD →
        AllocationRatio.calculate target raised =
          .ok ⟨target * PRECISION_FACTOR / raised⟩) ∧
      (U64MOD ≤ target * PRECISION_FACTOR →
        AllocationRatio.calculate target raised = .error .mathOverflow)) := by
  unfold AllocationRatio.calculate okOr checkedMul checkedDiv
  refine ⟨?_, ?_, ?_⟩
  · constructor
    · intro h
      by_contra h0
      by_cases hov : raised > target
      · by_cases hm : target * PRECISION_FACTOR < U64MOD
        · simp [h0, hov, hm, bind, Except.bind, pure, Except.pure] at h
        · simp [h0, hov, hm, bind, Except.bind, pure, Except.pure] at h
      · simp [h0, hov, bind, Except.bind, pure, Except.pure] at h
    · intro h0
      subst h0
      rfl
  · intro h0 hle
    have hov : ¬raised > target := Nat.not_lt.mpr hle
    simp [h0, hov, bind, Except.bind, pure, Except.pure]
  · intro hov
    constructor
    · intro hm
      have h0 : ¬raised = 0 := by omega
      simp [h0, hov, hm, bind, Except.bind, pure, Except.pure]
    · intro hm
      have h0 : ¬raised = 0 := by omega
      have hm' : ¬target * PRECISION_FACTOR < U64MOD := Nat.not_lt.mpr hm
      simp [h0, hov, hm', bind, Except.bind, pure, Except.pure]

/-- Witness for C1 at concrete inputs: `(target, raised) = (3, 5)` is
oversubscribed and representable, giving ratio `3 * 10^9 / 5 = 600000000`. -/
theorem C1_calculate_contract_witness :
    AllocationRatio.calculate 3 5 = .ok ⟨600000000⟩ := by
  have h := ((C1_calculate_contract 3 5).2.2 (by decide)).1 (by decide)
  simpa using h

/-- For a ratio bounded by the scale, the scaled-down product never exceeds
the amount. -/
theorem ratio_apply_div_le (r : AllocationRatio)
    (hle : r.ratio ≤ PRECISION_FACTOR) (amount : Nat) :
    amount * r.ratio / PRECISION_FACTOR ≤ amount := by
  apply Nat.div_le_of_le_mul
  calc amount * r.ratio ≤ amount * PRECISION_FACTOR :=
        Nat.mul_le_mul_left _ hle
    _ = PRECISION_FACTOR * amount := Nat.mul_comm _ _

/-- Closed form of `apply_to_commitment` for any ratio `≤ PRECISION_FACTOR`:
it either returns `(amount * ratio / 10^9, amount - that)` or fails with
`MathOverflow` on the checked multiplication. -/
theorem apply_to_commitment_eq (r : AllocationRatio)
    (hle : r.ratio ≤ PRECISION_FACTOR) (amount : Nat) :
    r.apply_to_commitment amount =
      if amount * r.ratio < U64MOD then
        .ok (amount * r.ratio / PRECISION_FACTOR,
             amount - amount * r.ratio / PRECISION_FACTOR)
      else
        .error .mathOverflow := by
  have halloc := ratio_apply_div_le r hle amount
  unfold AllocationRatio.apply_to_commitment okOr checkedMul checkedDiv
    checkedSub
  by_cases hm : amount * r.ratio < U64MOD
  · simp [hm, halloc, PF_ne_zero, bind, Except.bind, pure, Except.pure]
  · simp [hm, bind, Except.bind, pure, Except.pure]

/-- C2: whenever `calculate` succeeds, the returned ratio conserves value:
every successful `apply_to_commitment` returns `(effective, refund)` with
`effective + refund = amount`, and the `MathUnderflow` branch of
`apply_to_commitment` is unreachable because the ratio is `≤ 10^9`, hence
`effective ≤ amount`. -/
theorem C2_apply_conserves (target raised : Nat) (r : AllocationRatio)
    (hcalc : AllocationRatio.calculate target raised = .ok r) :
    (∀ amount e ref, r.apply_to_commitment amount = .ok (e, ref) →
      e + ref = amount) ∧
    (∀ amount, r.apply_to_commitment amount ≠ .error .mathUnderflow) := by
  have hle : r.ratio ≤ PRECISION_FACTOR := calculate_ratio_le target raised r hcalc
  have key := apply_to_commitment_eq r hle
  constructor
  · intro amount e ref h
    rw [key] at h
    by_cases hm : amount * r.ratio < U64MOD
    · simp only [hm, if_true] at h
      have halloc := ratio_apply_div_le r hle amount
      cases h
      omega
    · simp [hm] at h
  · intro amount h
    rw [key] at h
    by_cases hm : amount * r.ratio < U64MOD
    · simp [hm] at h
    · simp [hm] at h

/-- Witness for C2 at concrete inputs: the full ratio from
`calculate 1000 800` applied to `500` conserves `500 = 500 + 0`. -/
theorem C2_apply_conserves_witness : (500 : Nat) + 0 = 500 :=
  (C2_apply_conserves 1000 800 ⟨PRECISION_FACTOR⟩ rfl).1 500 500 0 rfl

/-- C3 counterexample: in the spec's Scenario A
(`price = 10`, `capacity = 200`, target `2000`, raised `3000`) the user who
committed `2000` receives `effective = 1333` and `refund = 667`
(`2000 * 666666666 / 10^9 = 1333`), not the claimed `1332` / `668`. -/
theorem C3_scenario_counterexample :
    (calculate_claimable_amounts 2000 2000 3000 10).map
        (fun a => (a.effective_payment_tokens, a.refund_payment_tokens)) =
      .ok (1333, 667) ∧
    ((1333, 667) : Nat × Nat) ≠ (1332, 668) := by
  exact ⟨rfl, by decide⟩

/-- C3 amended: with bin `price = 10`, `capacity = 200` (target `2000`) and
raised `3000`, the allocation ratio is `666666666`; a user who committed
`1000` gets `sale = 66`, `refund = 334`, `effective = 666`; a user who
committed `2000` gets `sale = 133`, `refund = 667`, `effective = 1333`. -/
theorem C3_scenario_amended :
    calculate_claimable_amounts 1000 2000 3000 10 =
      .ok { sale_tokens := 66
            refund_payment_tokens := 334
            effective_payment_tokens := 666
            allocation_ratio := ⟨666666666⟩ } ∧
    calculate_claimable_amounts 2000 2000 3000 10 =
      .ok { sale_tokens := 133
            refund_payment_tokens := 667
            effective_payment_tokens := 1333
            allocation_ratio := ⟨666666666⟩ } := by
  exact ⟨rfl, rfl⟩

/-- Behaviour of `calculate_bin_withdraw_amounts` at nonzero price: it
succeeds with the §4.3 values iff `sold * price` is representable, and
fails with `MathOverflow` otherwise. -/
theorem bin_withdraw_eq (raised cap price : Nat) (hp : price ≠ 0) :
    calculate_bin_withdraw_amounts raised cap price =
      if min (raised / price) cap * price < U64MOD then
        .ok { payment_tokens_to_withdraw := min (raised / price) cap * price
              unsold_sale_tokens := cap - min (raised / price) cap
              sale_tokens_sold := min (raised / price) cap }
      else
        .error .mathOverflow := by
  unfold calculate_bin_withdraw_amounts okOr checkedDiv checkedMul checkedSub
  have hmin : min (raised / price) cap ≤ cap := Nat.min_le_right _ _
  by_cases hm : min (raised / price) cap * price < U64MOD
  · simp [hp, hm, hmin, bind, Except.bind, pure, Except.pure]
  · simp [hp, hm, bind, Except.bind, pure, Except.pure]

/-- The accumulation loop of `calculate_total_withdraw_amounts`: starting
from in-range accumulators over bins that each succeed, it returns the
accumulated sums when they stay below `2^64` and fails with `MathOverflow`
otherwise. -/
theorem totalWithdrawGo_spec (bins : List AuctionBin) :
    ∀ p u : Nat, p < U64MOD → u < U64MOD →
    (∀ b ∈ bins, binWithdrawOk b) →
    ((p + sumPaymentSpec bins < U64MOD ∧ u + sumUnsoldSpec bins < U64MOD) →
      totalWithdrawGo p u bins =
        .ok { total_payment_tokens := p + sumPaymentSpec bins
              total_unsold_sale_tokens := u + sumUnsoldSpec bins }) ∧
    (¬(p + sumPaymentSpec bins < U64MOD ∧ u + sumUnsoldSpec bins < U64MOD) →
      totalWithdrawGo p u bins = .error .mathOverflow) := by
  induction bins with
  | nil =>
      intro p u hp hu _
      constructor
      · intro _
        simp [totalWithdrawGo, sumPaymentSpec, sumUnsoldSpec]
      · intro hcon
        exfalso
        simp only [sumPaymentSpec, sumUnsoldSpec, List.map_nil, List.sum_nil] at hcon
        exact hcon ⟨by omega, by omega⟩
  | cons b rest ih =>
      intro p u hp hu hok
      have hb : binWithdrawOk b := hok b (by simp)
      have hrest : ∀ x ∈ rest, binWithdrawOk x := fun x hx => hok x (by simp [hx])
      have hbe := bin_withdraw_eq b.payment_token_raised b.sale_token_cap
        b.sale_token_price hb.1
      have hpay : binPaymentSpec b < U64MOD := hb.2
      have hsum1 : sumPaymentSpec (b :: rest) =
          binPaymentSpec b + sumPaymentSpec rest := by
        simp [sumPaymentSpec]
      have hsum2 : sumUnsoldSpec (b :: rest) =
          binUnsoldSpec b + sumUnsoldSpec rest := by
        simp [sumUnsoldSpec]
      have hbe' : calculate_bin_withdraw_amounts b.payment_token_raised
          b.sale_token_cap b.sale_token_price =
          .ok { payment_tokens_to_withdraw := binPaymentSpec b
                unsold_sale_tokens := binUnsoldSpec b
                sale_tokens_sold := binSoldSpec b } := by
        rw [hbe, if_pos]
        · rfl
        · exact hpay
      by_cases h1 : p + binPaymentSpec b < U64MOD
      · by_cases h2 : u + binUnsoldSpec b < U64MOD
        · have step1 : totalWithdrawGo p u (b :: rest) =
              totalWithdrawGo (p + binPaymentSpec b) (u + binUnsoldSpec b)
                rest := by
            conv_lhs => rw [totalWithdrawGo]
            rw [hbe']
            simp [okOr, checkedAdd, h1, h2, bind, Except.bind]
          have hih := ih (p + binPaymentSpec b) (u + binUnsoldSpec b) h1 h2 hrest
          constructor
          · intro hcond
            rw [step1, hsum1, hsum2, ← Nat.add_assoc, ← Nat.add_assoc]
            rw [hsum1, hsum2] at hcond
            exact hih.1 (by constructor <;> omega)
          · intro hcond
            rw [step1]
            rw [hsum1, hsum2] at hcond
            apply hih.2
            intro hc
            exact hcond ⟨by omega, by omega⟩
        · have step1 : totalWithdrawGo p u (b :: rest) =
              .error .mathOverflow := by
            conv_lhs => rw [totalWithdrawGo]
            rw [hbe']
            simp [okOr, checkedAdd, h1, h2, bind, Except.bind]
          constructor
          · intro hcond
            exfalso
            rw [hsum2] at hcond
            omega
          · intro _
            exact step1
      · have step1 : totalWithdrawGo p u (b :: rest) =
            .error .mathOverflow := by
          conv_lhs => rw [totalWithdrawGo]
          rw [hbe']
          simp [okOr, checkedAdd, h1, bind, Except.bind]
        constructor
        · intro hcond
          exfalso
          rw [hsum1] at hcond
          omega
        · intro _
          exact step1

/-- C8: per bin, the withdrawal computation returns
`demanded = raised / price` (failing `DivisionByZero` when `price = 0`),
`sold = min(demanded, capacity)`, `payment_due = sold * price` and
`unsold = capacity - sold` (failing `MathOverflow` when `sold * price`
overflows `u64`); the aggregate sums `payment_due` and `unsold` over all
bins with checked addition, failing with `MathOverflow` exactly when an
accumulated sum leaves `u64` range. -/
theorem C8_withdraw_amounts (raised cap price : Nat) (bins : List AuctionBin) :
    (calculate_bin_withdraw_amounts raised cap 0 = .error .divisionByZero) ∧
    (price ≠ 0 →
      (min (raised / price) cap * price < U64MOD →
        calculate_bin_withdraw_amounts raised cap price =
          .ok { payment_tokens_to_withdraw := min (raised / price) cap * price
                unsold_sale_tokens := cap - min (raised / price) cap
                sale_tokens_sold := min (raised / price) cap }) ∧
      (¬min (raised / price) cap * price < U64MOD →
        calculate_bin_withdraw_amounts raised cap price =
          .error .mathOverflow)) ∧
    ((∀ b ∈ bins, binWithdrawOk b) →
      ((sumPaymentSpec bins < U64MOD ∧ sumUnsoldSpec bins < U64MOD) →
        calculate_total_withdraw_amounts bins =
          .ok { total_payment_tokens := sumPaymentSpec bins
                total_unsold_sale_tokens := sumUnsoldSpec bins }) ∧
      (¬(sumPaymentSpec bins < U64MOD ∧ sumUnsoldSpec bins < U64MOD) →
        calculate_total_withdraw_amounts bins = .error .mathOverflow)) := by
  refine ⟨rfl, ?_, ?_⟩
  · intro hp
    constructor
    · intro hm
      rw [bin_withdraw_eq raised cap price hp, if_pos hm]
    · intro hm
      rw [bin_withdraw_eq raised cap price hp, if_neg hm]
  · intro hok
    have h := totalWithdrawGo_spec bins 0 0 (by decide) (by decide) hok
    unfold calculate_total_withdraw_amounts
    constructor
    · intro hcond
      have := h.1 (by constructor <;> omega)
      simpa using this
    · intro hcond
      apply h.2
      intro hc
      exact hcond ⟨by omega, by omega⟩

/-- Witness for C8 at concrete inputs: `raised = 8000`, `cap = 10000`,
`price = 1000` sells 8 tokens for 8000 payment with 9992 unsold, and the
aggregate over that single bin returns the same totals. -/
theorem C8_withdraw_amounts_witness :
    calculate_total_withdraw_amounts
        [{ sale_token_price := 1000
           sale_token_cap := 10000
           payment_token_raised := 8000
           sale_token_claimed := 0 }] =
      .ok { total_payment_tokens := 8000, total_unsold_sale_tokens := 9992 } := by
  have h := ((C8_withdraw_amounts 0 0 1
      [{ sale_token_price := 1000
         sale_token_cap := 10000
         payment_token_raised := 8000
         sale_token_claimed := 0 }]).2.2 (by
    intro b hb
    simp only [List.mem_singleton] at hb
    subst hb
    constructor
    · decide
    · decide)).1 (by decide)
  simpa using h

/-- C10: `init_auction` accepts a bin list only of length 1..10; when the
admin and timing gates pass, any list of length 0 or greater than 10 fails
with `InvalidAuctionBinsLength` (and, the result being an error, no auction
state is created). -/
theorem C10_init_auction_bins_length :
    (∀ (authority : Pubkey) (now cs ce cls : Int)
      (bins : List AuctionBinParams) (custody : Pubkey)
      (extensions : AuctionExtensions) (s : LaunchpadState),
      init_auction authority now cs ce cls bins custody extensions = .ok s →
      1 ≤ bins.length ∧ bins.length ≤ 10) ∧
    (∀ (now cs ce cls : Int) (bins : List AuctionBinParams) (custody : Pubkey)
      (extensions : AuctionExtensions),
      now ≤ cs → cs ≤ ce → ce ≤ cls →
      (bins.length = 0 ∨ bins.length > 10) →
      init_auction LAUNCHPAD_ADMIN now cs ce cls bins custody extensions =
        .error .invalidAuctionBinsLength) := by
  constructor
  · intro authority now cs ce cls bins custody extensions s h
    unfold init_auction at h
    by_cases hlen : 1 ≤ bins.length ∧ bins.length ≤ 10
    · exact hlen
    · exfalso
      split_ifs at h
  · intro now cs ce cls bins custody extensions h1 h2 h3 hlen
    unfold init_auction
    rw [if_neg, if_neg, if_pos]
    · omega
    · omega
    · simp

/-- Witness for C10 at concrete inputs: the empty bin list is rejected with
`InvalidAuctionBinsLength`. -/
theorem C10_init_auction_bins_length_witness :
    init_auction LAUNCHPAD_ADMIN 0 0 0 0 [] LAUNCHPAD_ADMIN
        { whitelist_authority := none
          commit_cap_per_user := none
          claim_fee_rate := none } =
      .error .invalidAuctionBinsLength :=
  C10_init_auction_bins_length.2 0 0 0 0 [] LAUNCHPAD_ADMIN
    { whitelist_authority := none
      commit_cap_per_user := none
      claim_fee_rate := none }
    (by omega) (by omega) (by omega) (Or.inl rfl)

/-- Inversion for a successful `Except` bind. -/
theorem except_bind_ok {α β : Type} {x : Except Err α} {f : α → Except Err β}
    {b : β} (h : (x >>= f) = .ok b) : ∃ a, x = .ok a ∧ f a = .ok b := by
  cases x with
  | error e => simp [bind, Except.bind] at h
  | ok a =>
      refine ⟨a, rfl, ?_⟩
      simpa [bind, Except.bind] using h

/-- A throw never produces a success. -/
theorem except_throw_ne_ok {α : Type} {e : Err} {a : α}
    (h : (throw e : Except Err α) = .ok a) : False := by
  simp [throw, throwThe, MonadExceptOf.throw] at h

/-- Inversion for a successful `okOr`. -/
theorem okOr_ok {α : Type} {o : Option α} {e : Err} {a : α}
    (h : okOr o e = .ok a) : o = some a := by
  cases o with
  | none => simp [okOr] at h
  | some x =>
      simp only [okOr] at h
      cases h
      rfl

/-- Success shape of `commit`: the new state stores the bumped ledger for
`user` with nonce incremented by one, and adds the committed amount to the
bin's `payment_token_raised`; nothing else changes. -/
theorem commit_ok_elim {s : LaunchpadState} {user : Pubkey}
    {bin_id amt exp : Nat} {now : Int} {ak : Pubkey} {ca : Option Pubkey}
    {sv : Option Ed25519Ix} {s' : LaunchpadState}
    (h : commit s user bin_id amt exp now ak ca sv = .ok s') :
    ∃ (bin : AuctionBin) (bins1 : List CommittedBin) (tp1 : Nat),
      s.auction.bins.get? bin_id = some bin ∧
      commitBumpBins ((lookupUser s.users user).getD
        { user := user, bins := [], nonce := 0 }).bins bin_id amt = .ok bins1 ∧
      s' = { auction := { s.auction with
               bins := s.auction.bins.set bin_id
                 { bin with payment_token_raised :=
                     bin.payment_token_raised + amt }
               total_participants := tp1 }
             users := setUser s.users user
               { user := user
                 bins := bins1
                 nonce := ((lookupUser s.users user).getD
                   { user := user, bins := [], nonce := 0 }).nonce + 1 } } := by
  unfold commit at h
  obtain ⟨u1, hce, h⟩ := except_bind_ok h
  by_cases ht : ¬(s.auction.commit_start_time ≤ now ∧
      now ≤ s.auction.commit_end_time)
  · rw [if_pos ht] at h
    exact absurd h except_throw_ne_ok
  · rw [if_neg ht] at h
    by_cases ha : amt = 0
    · rw [if_pos ha] at h
      exact absurd h except_throw_ne_ok
    · rw [if_neg ha] at h
      obtain ⟨bin0, hbin0, h⟩ := except_bind_ok h
      obtain ⟨is_cust, hcust, h⟩ := except_bind_ok h
      obtain ⟨u2, hgate, h⟩ := except_bind_ok h
      obtain ⟨bins1, hbins1, h⟩ := except_bind_ok h
      obtain ⟨tp1, htp1, h⟩ := except_bind_ok h
      obtain ⟨bin, hbin, h⟩ := except_bind_ok h
      obtain ⟨nonce1, hnonce1, h⟩ := except_bind_ok h
      have hbin' := okOr_ok hbin
      have hnonce' := okOr_ok hnonce1
      have hadd : nonce1 = ((lookupUser s.users user).getD
          { user := user, bins := [], nonce := 0 }).nonce + 1 := by
        unfold checkedAdd at hnonce'
        by_cases hlt : ((lookupUser s.users user).getD
            { user := user, bins := [], nonce := 0 }).nonce + 1 < U64MOD
        · rw [if_pos hlt] at hnonce'
          cases hnonce'
          rfl
        · rw [if_neg hlt] at hnonce'
          cases hnonce'
      refine ⟨bin, bins1, tp1, hbin', hbins1, ?_⟩
      cases h
      rw [hadd]

/-- Success shape of `decrease_commit`: both the user's committed amount and
the bin's `payment_token_raised` drop by the reverted amount. -/
theorem decrease_commit_ok_elim {s : LaunchpadState} {user : Pubkey}
    {bin_id amt : Nat} {now : Int} {s' : LaunchpadState}
    (h : decrease_commit s user bin_id amt now = .ok s') :
    ∃ (c : Committed) (cb : CommittedBin) (bin : AuctionBin),
      lookupUser s.users user = some c ∧
      c.find_bin bin_id = some cb ∧
      amt ≤ cb.payment_token_committed ∧
      s.auction.bins.get? bin_id = some bin ∧
      s' = { auction := { s.auction with
               bins := s.auction.bins.set bin_id
                 { bin with payment_token_raised :=
                     bin.payment_token_raised - amt } }
             users := setUser s.users user
               { c with bins := decreaseBins c.bins bin_id amt } } := by
  unfold decrease_commit at h
  obtain ⟨u1, hce, h⟩ := except_bind_ok h
  by_cases ht : ¬(s.auction.commit_start_time ≤ now ∧
      now ≤ s.auction.commit_end_time)
  · rw [if_pos ht] at h
    exact absurd h except_throw_ne_ok
  · rw [if_neg ht] at h
    by_cases ha : amt = 0
    · rw [if_pos ha] at h
      exact absurd h except_throw_ne_ok
    · rw [if_neg ha] at h
      obtain ⟨c, hc, h⟩ := except_bind_ok h
      obtain ⟨cb, hcb, h⟩ := except_bind_ok h
      by_cases hge : ¬cb.payment_token_committed ≥ amt
      · rw [if_pos hge] at h
        exact absurd h except_throw_ne_ok
      · rw [if_neg hge] at h
        obtain ⟨bin, hbin, h⟩ := except_bind_ok h
        refine ⟨c, cb, bin, okOr_ok hc, okOr_ok hcb, by omega,
          okOr_ok hbin, ?_⟩
        cases h
        rfl

/-- Success shape of `claim`: the auction keeps its bins except for the
claimed bin's `sale_token_claimed` bump, fees may grow, and the user's
ledger is either updated in place (claim bumps only) or destroyed on full
settlement. -/
theorem claim_ok_elim {s : LaunchpadState} {user : Pubkey}
    {bin_id sale refund : Nat} {now : Int} {s' : LaunchpadState}
    (h : claim s user bin_id sale refund now = .ok s') :
    ∃ (c : Committed) (cb : CommittedBin) (bin : AuctionBin) (fees1 : Nat)
      (allb : Bool),
      lookupUser s.users user = some c ∧
      c.find_bin bin_id = some cb ∧
      s.auction.bins.get? bin_id = some bin ∧
      s' = { auction := { s.auction with
               bins :=
                 if sale > 0 then
                   s.auction.bins.set bin_id
                     { bin with sale_token_claimed :=
                         bin.sale_token_claimed + sale }
                 else
                   s.auction.bins
               total_fees_collected := fees1 }
             users :=
               if allb then
                 removeUser s.users user
               else
                 setUser s.users user
                   { c with bins :=
                       (if refund > 0 then
                         claimBumpRefund
                           (if sale > 0 then
                             claimBumpSale c.bins bin_id sale
                           else
                             c.bins) bin_id refund
                       else
                         (if sale > 0 then
                           claimBumpSale c.bins bin_id sale
                         else
                           c.bins)) } } := by
  unfold claim at h
  obtain ⟨u1, hce, h⟩ := except_bind_ok h
  by_cases ht : ¬s.auction.claim_start_time ≤ now
  · rw [if_pos ht] at h
    exact absurd h except_throw_ne_ok
  · rw [if_neg ht] at h
    by_cases ha : sale = 0 ∧ refund = 0
    · rw [if_pos ha] at h
      exact absurd h except_throw_ne_ok
    · rw [if_neg ha] at h
      obtain ⟨c, hc, h⟩ := except_bind_ok h
      by_cases hu : c.user ≠ user
      · rw [if_pos hu] at h
        exact absurd h except_throw_ne_ok
      · rw [if_neg hu] at h
        obtain ⟨cb, hcb, h⟩ := except_bind_ok h
        obtain ⟨bin, hbin, h⟩ := except_bind_ok h
        obtain ⟨tgt, htgt, h⟩ := except_bind_ok h
        obtain ⟨claimable, hclaimable, h⟩ := except_bind_ok h
        obtain ⟨u2, hval, h⟩ := except_bind_ok h
        by_cases hex : ¬(sale ≤ claimable.sale_tokens - cb.sale_token_claimed ∧
            refund ≤ claimable.refund_payment_tokens - cb.payment_token_refunded)
        · rw [if_pos hex] at h
          exact absurd h except_throw_ne_ok
        · rw [if_neg hex] at h
          obtain ⟨allb, hallb, h⟩ := except_bind_ok h
          by_cases hall : allb = true
          · rw [hall, if_pos rfl] at h
            refine ⟨c, cb, bin,
              (if sale > 0 ∧ s.auction.extensions.calculate_claim_fee sale > 0
               then s.auction.total_fees_collected +
                 s.auction.extensions.calculate_claim_fee sale
               else s.auction.total_fees_collected),
              true, okOr_ok hc, okOr_ok hcb, okOr_ok hbin, ?_⟩
            cases h
            rfl
          · rw [if_neg hall] at h
            refine ⟨c, cb, bin,
              (if sale > 0 ∧ s.auction.extensions.calculate_claim_fee sale > 0
               then s.auction.total_fees_collected +
                 s.auction.extensions.calculate_claim_fee sale
               else s.auction.total_fees_collected),
              false, okOr_ok hc, okOr_ok hcb, okOr_ok hbin, ?_⟩
            cases h
            rfl

/-- Success shape of `withdraw_funds`: the only state change is setting the
one-shot withdrawal flag, and it was previously unset. -/
theorem withdraw_funds_ok_elim {s : LaunchpadState} {authority : Pubkey}
    {now : Int} {s' : LaunchpadState}
    (h : withdraw_funds s authority now = .ok s') :
    s.auction.unsold_sale_tokens_and_effective_payment_tokens_withdrawn =
      false ∧
    s' = { s with auction := { s.auction with
      unsold_sale_tokens_and_effective_payment_tokens_withdrawn := true } } := by
  unfold withdraw_funds at h
  by_cases hauth : authority ≠ s.auction.authority
  · rw [if_pos hauth] at h
    exact absurd h except_throw_ne_ok
  · rw [if_neg hauth] at h
    obtain ⟨u1, hce, h⟩ := except_bind_ok h
    by_cases hflag :
        s.auction.unsold_sale_tokens_and_effective_payment_tokens_withdrawn
    · rw [if_pos hflag] at h
      exact absurd h except_throw_ne_ok
    · rw [if_neg hflag] at h
      by_cases ht : ¬now > s.auction.commit_end_time
      · rw [if_pos ht] at h
        exact absurd h except_throw_ne_ok
      · rw [if_neg ht] at h
        rw [if_neg hauth] at h
        obtain ⟨tot, htot, h⟩ := except_bind_ok h
        refine ⟨by simpa using hflag, ?_⟩
        cases h
        rfl

/-- Success shape of `withdraw_fees`: only `total_fees_withdrawn` changes. -/
theorem withdraw_fees_ok_elim {s : LaunchpadState} {authority : Pubkey}
    {now : Int} {s' : LaunchpadState}
    (h : withdraw_fees s authority now = .ok s') :
    s' = { s with auction := { s.auction with
      total_fees_withdrawn := s'.auction.total_fees_withdrawn } } := by
  unfold withdraw_fees at h
  by_cases hauth : authority ≠ s.auction.authority
  · rw [if_pos hauth] at h
    exact absurd h except_throw_ne_ok
  · rw [if_neg hauth] at h
    obtain ⟨u1, hce, h⟩ := except_bind_ok h
    by_cases ht : ¬now > s.auction.commit_end_time
    · rw [if_pos ht] at h
      exact absurd h except_throw_ne_ok
    · rw [if_neg ht] at h
      obtain ⟨fees, hfees, h⟩ := except_bind_ok h
      by_cases hpos : fees > 0
      · rw [if_pos hpos] at h
        cases h
        rfl
      · rw [if_neg hpos] at h
        cases h
        rfl

/-- Success shape of `set_price`: the only state change is the targeted
bin's `sale_token_price`. -/
theorem set_price_ok_elim {s : LaunchpadState} {authority : Pubkey}
    {bin_id new_price : Nat} {s' : LaunchpadState}
    (h : set_price s authority bin_id new_price = .ok s') :
    ∃ bin : AuctionBin,
      s.auction.bins.get? bin_id = some bin ∧
      new_price > 0 ∧
      s' = { s with auction := { s.auction with
        bins := s.auction.bins.set bin_id
          { bin with sale_token_price := new_price } } } := by
  unfold set_price at h
  by_cases hauth : authority ≠ s.auction.authority
  · rw [if_pos hauth] at h
    exact absurd h except_throw_ne_ok
  · rw [if_neg hauth] at h
    obtain ⟨u1, hce, h⟩ := except_bind_ok h
    by_cases hp : ¬new_price > 0
    · rw [if_pos hp] at h
      exact absurd h except_throw_ne_ok
    · rw [if_neg hp] at h
      obtain ⟨bin, hbin, h⟩ := except_bind_ok h
      refine ⟨bin, okOr_ok hbin, by omega, ?_⟩
      cases h
      rfl

/-- Success shape of `emergency_control`: only the pause mask changes. -/
theorem emergency_control_ok_elim {s : LaunchpadState} {authority : Pubkey}
    {p1 p2 p3 p4 p5 : Bool} {s' : LaunchpadState}
    (h : emergency_control s authority p1 p2 p3 p4 p5 = .ok s') :
    s' = { s with auction := { s.auction with
      emergency_state := s'.auction.emergency_state } } := by
  unfold emergency_control at h
  by_cases hauth : authority ≠ s.auction.authority
  · rw [if_pos hauth] at h
    simp at h
  · rw [if_neg hauth] at h
    cases h
    rfl

/-- C5: `withdraw_funds` is one-shot: a successful call sets the one-shot
withdrawal flag; every successful operation preserves the flag once set (no
operation clears it); and on an auction whose flag is set, a `withdraw_funds`
retry by the authority fails with `DoubleFundsWithdrawal` (hence, the result
being an error, changes nothing) whenever the withdraw-funds pause bit is
clear. -/
theorem C5_withdraw_funds_one_shot :
    (∀ (s : LaunchpadState) (authority : Pubkey) (now : Int)
      (s' : LaunchpadState),
      withdraw_funds s authority now = .ok s' →
      s'.auction.unsold_sale_tokens_and_effective_payment_tokens_withdrawn =
        true) ∧
    (∀ (s : LaunchpadState) (op : Op) (s' : LaunchpadState),
      step s op = .ok s' →
      s.auction.unsold_sale_tokens_and_effective_payment_tokens_withdrawn =
        true →
      s'.auction.unsold_sale_tokens_and_effective_payment_tokens_withdrawn =
        true) ∧
    (∀ (s : LaunchpadState) (authority : Pubkey) (now : Int),
      s.auction.unsold_sale_tokens_and_effective_payment_tokens_withdrawn =
        true →
      authority = s.auction.authority →
      s.auction.emergency_state.is_paused PAUSE_AUCTION_WITHDRAW_FUNDS =
        false →
      withdraw_funds s authority now = .error .doubleFundsWithdrawal) := by
  refine ⟨?_, ?_, ?_⟩
  · intro s authority now s' h
    rw [(withdraw_funds_ok_elim h).2]
  · intro s op s' h hflag
    cases op with
    | opCommit user bin_id amt exp now ak ca sv =>
        obtain ⟨bin, bins1, tp1, _, _, hs'⟩ := commit_ok_elim h
        rw [hs']
        exact hflag
    | opDecreaseCommit user bin_id amt now =>
        obtain ⟨c, cb, bin, _, _, _, _, hs'⟩ := decrease_commit_ok_elim h
        rw [hs']
        exact hflag
    | opClaim user bin_id sale refund now =>
        obtain ⟨c, cb, bin, fees1, allb, _, _, _, hs'⟩ := claim_ok_elim h
        rw [hs']
        exact hflag
    | opWithdrawFunds authority now =>
        have := (withdraw_funds_ok_elim h).1
        rw [this] at hflag
        cases hflag
    | opWithdrawFees authority now =>
        rw [withdraw_fees_ok_elim h]
        exact hflag
    | opSetPrice authority bin_id new_price =>
        obtain ⟨bin, _, _, hs'⟩ := set_price_ok_elim h
        rw [hs']
        exact hflag
    | opEmergencyControl authority p1 p2 p3 p4 p5 =>
        rw [emergency_control_ok_elim h]
        exact hflag
  · intro s authority now hflag hauth hpause
    unfold withdraw_funds
    rw [if_neg (by simp [hauth])]
    have hce : check_emergency_state s.auction PAUSE_AUCTION_WITHDRAW_FUNDS =
        .ok () := by
      unfold check_emergency_state
      rw [hpause]
      simp
    rw [hce]
    simp only [bind, Except.bind]
    rw [if_pos hflag]
    rfl

/-- Witness for C5 at a concrete state: on an auction with the flag already
set, unpaused, the authority's retry fails with `DoubleFundsWithdrawal`. -/
theorem C5_withdraw_funds_one_shot_witness :
    withdraw_funds
      { auction :=
          { authority := LAUNCHPAD_ADMIN
            custody := cexCustody
            commit_start_time := 0
            commit_end_time := 100
            claim_start_time := 100
            bins := [{ sale_token_price := 10
                       sale_token_cap := 200
                       payment_token_raised := 1000
                       sale_token_claimed := 0 }]
            extensions := cexExt
            total_participants := 1
            unsold_sale_tokens_and_effective_payment_tokens_withdrawn := true
            total_fees_collected := 0
            total_fees_withdrawn := 0
            emergency_state := ⟨0⟩ }
        users := [] }
      LAUNCHPAD_ADMIN 200 = .error .doubleFundsWithdrawal :=
  C5_withdraw_funds_one_shot.2.2 _ LAUNCHPAD_ADMIN 200 rfl rfl rfl

/-- `priceAt` after a `set` at the same index. -/
theorem priceAt_set_self (bins : List AuctionBin) (i : Nat) (nb : AuctionBin) :
    priceAt (bins.set i nb) i =
      match bins.get? i with
      | some _ => nb.sale_token_price
      | none => 0 := by
  unfold priceAt
  rw [List.get?_set_eq]
  cases bins.get? i <;> rfl

/-- `priceAt` after a `set` at a different index. -/
theorem priceAt_set_ne (bins : List AuctionBin) (i b : Nat) (nb : AuctionBin)
    (h : b ≠ i) : priceAt (bins.set i nb) b = priceAt bins b := by
  unfold priceAt
  rw [List.get?_set_ne nb bins (fun he => h he.symm)]

/-- A `set` that keeps the stored price leaves `priceAt` unchanged
everywhere. -/
theorem priceAt_set_preserve (bins : List AuctionBin) (i : Nat)
    (bin nb : AuctionBin) (hget : bins.get? i = some bin)
    (hp : nb.sale_token_price = bin.sale_token_price) (b : Nat) :
    priceAt (bins.set i nb) b = priceAt bins b := by
  by_cases hb : b = i
  · subst hb
    rw [priceAt_set_self, hget]
    unfold priceAt
    rw [hget, hp]
  · exact priceAt_set_ne bins i b nb hb

/-- `raisedAt` after a `set` at the same index. -/
theorem raisedAt_set_self (bins : List AuctionBin) (i : Nat)
    (nb : AuctionBin) :
    raisedAt (bins.set i nb) i =
      match bins.get? i with
      | some _ => nb.payment_token_raised
      | none => 0 := by
  unfold raisedAt
  rw [List.get?_set_eq]
  cases bins.get? i <;> rfl

/-- `raisedAt` after a `set` at a different index. -/
theorem raisedAt_set_ne (bins : List AuctionBin) (i b : Nat) (nb : AuctionBin)
    (h : b ≠ i) : raisedAt (bins.set i nb) b = raisedAt bins b := by
  unfold raisedAt
  rw [List.get?_set_ne nb bins (fun he => h he.symm)]

/-- A `set` that keeps the stored `payment_token_raised` leaves `raisedAt`
unchanged everywhere. -/
theorem raisedAt_set_preserve (bins : List AuctionBin) (i : Nat)
    (bin nb : AuctionBin) (hget : bins.get? i = some bin)
    (hp : nb.payment_token_raised = bin.payment_token_raised) (b : Nat) :
    raisedAt (bins.set i nb) b = raisedAt bins b := by
  by_cases hb : b = i
  · subst hb
    rw [raisedAt_set_self, hget]
    unfold raisedAt
    rw [hget, hp]
  · exact raisedAt_set_ne bins i b nb hb

/-- C9 counterexample: from a reachable state whose bin 0 already holds
`payment_token_raised = 1000 > 0`, `set_price` still succeeds and changes
that bin's price from 10 to 99 — the code has no guard restricting
re-pricing to before commitments begin. -/
theorem C9_counterexample :
    Reachable cexS1 ∧
    binRaised cexS1 0 = 1000 ∧
    step cexS1 (.opSetPrice LAUNCHPAD_ADMIN 0 99) = .ok c9S2 ∧
    binPrice cexS1 0 = 10 ∧
    binPrice c9S2 0 = 99 := by
  refine ⟨?_, by decide, rfl, by decide, by decide⟩
  exact Reachable.step cexS0 (.opCommit cexUser 0 1000 0 50 [] none none)
    cexS1
    (Reachable.init LAUNCHPAD_ADMIN 0 0 100 100
      [{ sale_token_price := 10, sale_token_cap := 200 }] cexCustody cexExt
      cexS0 rfl)
    rfl

/-- C9 amended: after creation the only operation that modifies a bin's
price is `set_price`; but `set_price` is permitted at any time — it requires
only that the caller is the auction authority, the admin-update pause bit is
clear, the new price is positive and the bin exists, with no restriction on
existing commitments (`payment_token_raised` may be positive). -/
theorem C9_set_price_amended :
    (∀ (s : LaunchpadState) (op : Op) (s' : LaunchpadState),
      step s op = .ok s' →
      (∀ (authority : Pubkey) (bin_id new_price : Nat),
        op ≠ .opSetPrice authority bin_id new_price) →
      ∀ b, binPrice s' b = binPrice s b) ∧
    (∀ (s : LaunchpadState) (authority : Pubkey) (bin_id new_price : Nat)
      (bin : AuctionBin),
      authority = s.auction.authority →
      s.auction.emergency_state.is_paused PAUSE_AUCTION_UPDATION = false →
      new_price > 0 →
      s.auction.bins.get? bin_id = some bin →
      set_price s authority bin_id new_price =
        .ok { s with auction := { s.auction with
          bins := s.auction.bins.set bin_id
            { bin with sale_token_price := new_price } } }) := by
  constructor
  · intro s op s' h hne b
    cases op with
    | opCommit user bin_id amt exp now ak ca sv =>
        obtain ⟨bin, bins1, tp1, hget, _, hs'⟩ := commit_ok_elim h
        have hbins : s'.auction.bins = s.auction.bins.set bin_id
            { bin with payment_token_raised :=
                bin.payment_token_raised + amt } := by
          rw [hs']
        unfold binPrice
        rw [hbins]
        exact priceAt_set_preserve s.auction.bins bin_id bin
          { bin with payment_token_raised := bin.payment_token_raised + amt }
          hget rfl b
    | opDecreaseCommit user bin_id amt now =>
        obtain ⟨c, cb, bin, _, _, _, hget, hs'⟩ := decrease_commit_ok_elim h
        have hbins : s'.auction.bins = s.auction.bins.set bin_id
            { bin with payment_token_raised :=
                bin.payment_token_raised - amt } := by
          rw [hs']
        unfold binPrice
        rw [hbins]
        exact priceAt_set_preserve s.auction.bins bin_id bin
          { bin with payment_token_raised := bin.payment_token_raised - amt }
          hget rfl b
    | opClaim user bin_id sale refund now =>
        obtain ⟨c, cb, bin, fees1, allb, _, _, hget, hs'⟩ := claim_ok_elim h
        have hbins : s'.auction.bins =
            (if sale > 0 then
              s.auction.bins.set bin_id
                { bin with sale_token_claimed :=
                    bin.sale_token_claimed + sale }
            else
              s.auction.bins) := by
          rw [hs']
        unfold binPrice
        rw [hbins]
        by_cases hsale : sale > 0
        · rw [if_pos hsale]
          exact priceAt_set_preserve s.auction.bins bin_id bin
            { bin with sale_token_claimed := bin.sale_token_claimed + sale }
            hget rfl b
        · rw [if_neg hsale]
    | opWithdrawFunds authority now =>
        have hbins : s'.auction.bins = s.auction.bins := by
          rw [(withdraw_funds_ok_elim h).2]
        unfold binPrice
        rw [hbins]
    | opWithdrawFees authority now =>
        have hbins : s'.auction.bins = s.auction.bins := by
          rw [withdraw_fees_ok_elim h]
        unfold binPrice
        rw [hbins]
    | opSetPrice authority bin_id new_price =>
        exact absurd rfl (hne authority bin_id new_price)
    | opEmergencyControl authority p1 p2 p3 p4 p5 =>
        have hbins : s'.auction.bins = s.auction.bins := by
          rw [emergency_control_ok_elim h]
        unfold binPrice
        rw [hbins]
  · intro s authority bin_id new_price bin hauth hpause hp hget
    unfold set_price
    rw [if_neg (by simp [hauth])]
    have hce : check_emergency_state s.auction PAUSE_AUCTION_UPDATION =
        .ok () := by
      unfold check_emergency_state
      rw [hpause]
      simp
    rw [hce]
    simp only [bind, Except.bind]
    rw [if_neg (by omega)]
    unfold Auction.get_bin
    rw [hget]
    rfl

/-- A successful `calculate_claimable_amounts` conserves the commitment:
`effective + refund = user_committed`. -/
theorem claimable_conserves (uc tgt raised price : Nat) (a : ClaimableAmounts)
    (h : calculate_claimable_amounts uc tgt raised price = .ok a) :
    a.effective_payment_tokens + a.refund_payment_tokens = uc := by
  unfold calculate_claimable_amounts at h
  obtain ⟨ratio, hr, h⟩ := except_bind_ok h
  obtain ⟨er, her, h⟩ := except_bind_ok h
  obtain ⟨st, hst, h⟩ := except_bind_ok h
  cases h
  have hle := calculate_ratio_le tgt raised ratio hr
  rw [apply_to_commitment_eq ratio hle] at her
  by_cases hm : uc * ratio.ratio < U64MOD
  · rw [if_pos hm] at her
    cases her
    have := ratio_apply_div_le ratio hle uc
    simp only []
    omega
  · rw [if_neg hm] at her
    simp at her

/-- C4: a claim whose requested sale amount exceeds the remaining sale
entitlement, or whose requested refund exceeds the remaining refund
entitlement (entitlements recomputed from the bin's current
raised/price/capacity), fails with `InvalidClaimAmount`; the result being an
error, no state (bin totals, per-user `BinEntry`, fee totals) is mutated.
The hypotheses state that every check preceding the entitlement guard
passes. -/
theorem C4_claim_exceeding_entitlement_fails
    (s : LaunchpadState) (user : Pubkey) (bin_id sale refund : Nat)
    (now : Int) (c : Committed) (cb : CommittedBin) (bin : AuctionBin)
    (claimable : ClaimableAmounts)
    (hpause : s.auction.emergency_state.is_paused PAUSE_AUCTION_CLAIM = false)
    (htime : s.auction.claim_start_time ≤ now)
    (hamount : ¬(sale = 0 ∧ refund = 0))
    (hc : lookupUser s.users user = some c)
    (huser : c.user = user)
    (hcb : c.find_bin bin_id = some cb)
    (hbin : s.auction.bins.get? bin_id = some bin)
    (htarget : bin.sale_token_cap * bin.sale_token_price < U64MOD)
    (hclaimable : calculate_claimable_amounts cb.payment_token_committed
      (bin.sale_token_cap * bin.sale_token_price) bin.payment_token_raised
      bin.sale_token_price = .ok claimable)
    (hcommitted : cb.payment_token_committed < U64MOD)
    (hexceed : sale > claimable.sale_tokens - cb.sale_token_claimed ∨
      refund > claimable.refund_payment_tokens - cb.payment_token_refunded) :
    claim s user bin_id sale refund now = .error .invalidClaimAmount := by
  have hconserve := claimable_conserves _ _ _ _ _ hclaimable
  unfold claim
  have hce : check_emergency_state s.auction PAUSE_AUCTION_CLAIM = .ok () := by
    unfold check_emergency_state
    rw [hpause]
    simp
  rw [hce]
  simp only [bind, Except.bind]
  rw [if_neg (not_not_intro htime), if_neg hamount, hc]
  simp only [okOr, bind, Except.bind]
  rw [if_neg (not_not_intro huser), hcb]
  simp only [okOr, bind, Except.bind]
  unfold Auction.get_bin
  rw [hbin]
  simp only [okOr, bind, Except.bind]
  have hmul : checkedMul bin.sale_token_cap bin.sale_token_price =
      some (bin.sale_token_cap * bin.sale_token_price) := by
    unfold checkedMul
    rw [if_pos htarget]
  rw [hmul]
  simp only [okOr, bind, Except.bind]
  rw [hclaimable]
  simp only [bind, Except.bind]
  have hval : claimable.validate cb.payment_token_committed = .ok () := by
    unfold ClaimableAmounts.validate okOr checkedAdd
    rw [hconserve, if_pos hcommitted]
    simp [bind, Except.bind, pure, Except.pure]
  rw [hval]
  simp only [bind, Except.bind]
  rw [if_pos]
  · rfl
  · intro hcon
    rcases hexceed with hx | hx
    · omega
    · omega

/-- Witness for C4 at a concrete state: on `cexS1` (entitlement 100 sale
tokens, 0 refund) a request for 101 sale tokens fails with
`InvalidClaimAmount`. -/
theorem C4_claim_exceeding_entitlement_fails_witness :
    claim cexS1 cexUser 0 101 0 100 = .error .invalidClaimAmount :=
  C4_claim_exceeding_entitlement_fails cexS1 cexUser 0 101 0 100
    { user := cexUser
      bins := [{ bin_id := 0
                 payment_token_committed := 1000
                 sale_token_claimed := 0
                 payment_token_refunded := 0 }]
      nonce := 1 }
    { bin_id := 0
      payment_token_committed := 1000
      sale_token_claimed := 0
      payment_token_refunded := 0 }
    { sale_token_price := 10
      sale_token_cap := 200
      payment_token_raised := 1000
      sale_token_claimed := 0 }
    { sale_tokens := 100
      refund_payment_tokens := 0
      effective_payment_tokens := 1000
      allocation_ratio := ⟨1000000000⟩ }
    rfl (by decide) (by decide) rfl rfl rfl rfl (by decide) rfl (by decide)
    (Or.inl (by decide))

/-- Witness for C9's amended theorem: on the reachable state `cexS1` with
`payment_token_raised = 1000 > 0` in bin 0, `set_price` succeeds. -/
theorem C9_set_price_amended_witness :
    set_price cexS1 LAUNCHPAD_ADMIN 0 99 = .ok c9S2 :=
  (C9_set_price_amended.2 cexS1 LAUNCHPAD_ADMIN 0 99
    { sale_token_price := 10
      sale_token_cap := 200
      payment_token_raised := 1000
      sale_token_claimed := 0 }
    rfl rfl (by omega) rfl).trans rfl

/-- Looking up a user right after storing their record finds that record. -/
theorem lookupUser_setUser (users : List (Pubkey × Committed)) (u : Pubkey)
    (c : Committed) : lookupUser (setUser users u c) u = some c := by
  induction users with
  | nil => simp [setUser, lookupUser]
  | cons p rest ih =>
      by_cases h : p.1 = u
      · simp [setUser, lookupUser, h]
      · simp [setUser, lookupUser, h, ih]

/-- `decodeLe` recovers the encoded value modulo `256 ^ k`. -/
theorem decodeLe_leBytes (k : Nat) : ∀ n, decodeLe (leBytes k n) = n % 256 ^ k := by
  induction k with
  | zero =>
      intro n
      simp [leBytes, decodeLe, Nat.mod_one]
  | succ k ih =>
      intro n
      show decodeLe (n % 256 :: leBytes k (n / 256)) = n % 256 ^ (k + 1)
      simp only [decodeLe, ih]
      rw [pow_succ']
      rw [Nat.mod_mul]

/-- Consecutive nonces have different 8-byte encodings. -/
theorem u64le_succ_ne (n : Nat) : u64le n ≠ u64le (n + 1) := by
  intro h
  have h1 := congrArg decodeLe h
  unfold u64le at h1
  rw [decodeLe_leBytes 8 n, decodeLe_leBytes 8 (n + 1)] at h1
  have h256 : (256 : Nat) ^ 8 = 18446744073709551616 := by norm_num
  rw [h256] at h1
  omega

/-- The canonical payload encoding separates consecutive nonces: two
payloads that differ only in the nonce serialize to different bytes. -/
theorem serialize_nonce_succ_ne (user auction : Pubkey)
    (bin_id amt nonce exp : Nat) :
    serializeWhitelistPayload user auction bin_id amt nonce exp ≠
      serializeWhitelistPayload user auction bin_id amt (nonce + 1) exp := by
  intro h
  unfold serializeWhitelistPayload at h
  have h1 := List.append_cancel_right h
  have h2 := List.append_cancel_left h1
  exact u64le_succ_ne nonce h2

/-- C6: a consumed signed authorization payload is never accepted twice.
Every successful commit stores the user's ledger with the nonce incremented
by exactly 1 (in the atomic embedding the increment exists only in the
success state, i.e. only once every other commit side effect has
succeeded); and if an Ed25519 instruction verified against nonce `n`, then
verifying the same instruction after the increment (expected nonce `n + 1`)
fails with `PayloadMismatch`, at any resubmission time. -/
theorem C6_nonce_replay_protection :
    (∀ (s : LaunchpadState) (user : Pubkey) (bin_id amt exp : Nat)
      (now : Int) (ak : Pubkey) (ca : Option Pubkey) (sv : Option Ed25519Ix)
      (s' : LaunchpadState),
      commit s user bin_id amt exp now ak ca sv = .ok s' →
      ∃ c', lookupUser s'.users user = some c' ∧
        c'.nonce = ((lookupUser s.users user).getD
          { user := user, bins := [], nonce := 0 }).nonce + 1) ∧
    (∀ (e : AuctionExtensions) (ix : Ed25519Ix) (user auction : Pubkey)
      (bin_id amt nonce exp : Nat) (now now' : Int),
      e.verify_whitelist_signature ix user auction bin_id amt nonce exp
        now = .ok () →
      e.verify_whitelist_signature ix user auction bin_id amt (nonce + 1)
        exp now' = .error .payloadMismatch) := by
  constructor
  · intro s user bin_id amt exp now ak ca sv s' h
    obtain ⟨bin, bins1, tp1, hget, hbump, hs'⟩ := commit_ok_elim h
    refine ⟨{ user := user
              bins := bins1
              nonce := ((lookupUser s.users user).getD
                { user := user, bins := [], nonce := 0 }).nonce + 1 }, ?_, rfl⟩
    rw [hs']
    exact lookupUser_setUser s.users user _
  · intro e ix user auction bin_id amt nonce exp now now' h
    unfold AuctionExtensions.verify_whitelist_signature at h ⊢
    by_cases c1 : ix.program_id ≠ ed25519ProgramId
    · rw [if_pos c1] at h
      exact absurd h except_throw_ne_ok
    · rw [if_neg c1] at h ⊢
      by_cases c2 : ix.data.length < 1 + 64 + 32 + 2 + 2
      · rw [if_pos c2] at h
        exact absurd h except_throw_ne_ok
      · rw [if_neg c2] at h ⊢
        by_cases c3 : ix.data.getD 0 0 ≠ 1
        · rw [if_pos c3] at h
          exact absurd h except_throw_ne_ok
        · rw [if_neg c3] at h ⊢
          by_cases c4 : (ix.data.drop (1 + 64)).take 32 ≠
              e.whitelist_authority.getD []
          · rw [if_pos c4] at h
            exact absurd h except_throw_ne_ok
          · rw [if_neg c4] at h ⊢
            by_cases c5 : ix.data.drop (1 + 64 + 32 + 4) ≠
                serializeWhitelistPayload user auction bin_id amt nonce exp
            · rw [if_pos c5] at h
              exact absurd h except_throw_ne_ok
            · rw [not_not] at c5
              rw [if_pos ?_]
              · rfl
              · rw [c5]
                exact serialize_nonce_succ_ne user auction bin_id amt nonce exp

set_option maxRecDepth 8192 in
/-- Witness for C6: the concrete instruction `c6Ix` verifies at nonce 0, and
its resubmission against the incremented nonce 1 fails with
`PayloadMismatch`. -/
theorem C6_nonce_replay_protection_witness :
    c6Ext.verify_whitelist_signature c6Ix cexUser c6AuctionKey 0 1000 1 50
      10 = .error .payloadMismatch :=
  C6_nonce_replay_protection.2 c6Ext c6Ix cexUser c6AuctionKey 0 1000 0 50
    10 10 rfl


/-- Unfolding lemma: committed amount over a cons ledger-entry list. -/
theorem listCommitted_cons (x : CommittedBin) (xs : List CommittedBin)
    (b : Nat) :
    listCommitted (x :: xs) b =
      if x.bin_id = b then x.payment_token_committed else listCommitted xs b := by
  unfold listCommitted
  have hfb : findBin (x :: xs) b =
      if x.bin_id = b then some x else findBin xs b := rfl
  rw [hfb]
  by_cases h : x.bin_id = b
  · rw [if_pos h, if_pos h]
  · rw [if_neg h, if_neg h]

/-- Unfolding lemma: per-bin sum over a cons account list. -/
theorem sumCommittedList_cons (p : Pubkey × Committed)
    (rest : List (Pubkey × Committed)) (b : Nat) :
    sumCommittedList (p :: rest) b =
      committedInBin p.2 b + sumCommittedList rest b := by
  simp [sumCommittedList]

/-- A user with no record contributes no key to the list. -/
theorem lookupUser_none_iff (users : List (Pubkey × Committed)) (u : Pubkey) :
    lookupUser users u = none ↔ ∀ p ∈ users, p.1 ≠ u := by
  induction users with
  | nil => simp [lookupUser]
  | cons p rest ih =>
      by_cases h : p.1 = u
      · simp [lookupUser, h]
      · simp [lookupUser, h, ih]

/-- Storing a fresh record appends its contribution to the per-bin sum. -/
theorem sumCommittedList_setUser_none (users : List (Pubkey × Committed))
    (u : Pubkey) (c : Committed) (b : Nat)
    (h : lookupUser users u = none) :
    sumCommittedList (setUser users u c) b =
      sumCommittedList users b + committedInBin c b := by
  induction users with
  | nil => simp [setUser, sumCommittedList_cons, sumCommittedList]
  | cons p rest ih =>
      unfold lookupUser at h
      by_cases hp : p.1 = u
      · rw [if_pos hp] at h
        cases h
      · rw [if_neg hp] at h
        unfold setUser
        rw [if_neg hp]
        rw [sumCommittedList_cons, sumCommittedList_cons, ih h]
        omega

/-- Overwriting an existing record exchanges its contribution in the
per-bin sum (stated additively to avoid truncated subtraction). -/
theorem sumCommittedList_setUser_some (users : List (Pubkey × Committed))
    (u : Pubkey) (c0 c : Committed) (b : Nat)
    (h : lookupUser users u = some c0) :
    sumCommittedList (setUser users u c) b + committedInBin c0 b =
      sumCommittedList users b + committedInBin c b := by
  induction users with
  | nil => simp [lookupUser] at h
  | cons p rest ih =>
      unfold lookupUser at h
      by_cases hp : p.1 = u
      · rw [if_pos hp] at h
        cases h
        unfold setUser
        rw [if_pos hp]
        rw [sumCommittedList_cons, sumCommittedList_cons]
        dsimp only
        omega
      · rw [if_neg hp] at h
        unfold setUser
        rw [if_neg hp]
        rw [sumCommittedList_cons, sumCommittedList_cons]
        have := ih h
        omega

/-- Destroying an existing record removes its contribution from the
per-bin sum. -/
theorem sumCommittedList_removeUser_some (users : List (Pubkey × Committed))
    (u : Pubkey) (c0 : Committed) (b : Nat)
    (h : lookupUser users u = some c0) :
    sumCommittedList (removeUser users u) b + committedInBin c0 b =
      sumCommittedList users b := by
  induction users with
  | nil => simp [lookupUser] at h
  | cons p rest ih =>
      unfold lookupUser at h
      by_cases hp : p.1 = u
      · rw [if_pos hp] at h
        cases h
        unfold removeUser
        rw [if_pos hp]
        rw [sumCommittedList_cons]
        omega
      · rw [if_neg hp] at h
        unfold removeUser
        rw [if_neg hp]
        rw [sumCommittedList_cons, sumCommittedList_cons]
        have := ih h
        omega

/-- A stored record's contribution is bounded by the per-bin sum. -/
theorem committedInBin_le_sum (users : List (Pubkey × Committed))
    (u : Pubkey) (c0 : Committed) (b : Nat)
    (h : lookupUser users u = some c0) :
    committedInBin c0 b ≤ sumCommittedList users b := by
  induction users with
  | nil => simp [lookupUser] at h
  | cons p rest ih =>
      unfold lookupUser at h
      rw [sumCommittedList_cons]
      by_cases hp : p.1 = u
      · rw [if_pos hp] at h
        cases h
        omega
      · rw [if_neg hp] at h
        have := ih h
        omega

/-- The commit-path ledger update adds the amount to the committed bin and
leaves every other bin's committed amount unchanged. -/
theorem commitBumpBins_listCommitted {bins : List CommittedBin} {i amt : Nat}
    {bins1 : List CommittedBin} (h : commitBumpBins bins i amt = .ok bins1)
    (b : Nat) :
    listCommitted bins1 b =
      listCommitted bins b + (if b = i then amt else 0) := by
  induction bins generalizing bins1 with
  | nil =>
      unfold commitBumpBins at h
      cases h
      rw [listCommitted_cons]
      by_cases hb : b = i
      · subst hb
        simp [listCommitted, findBin]
      · have : ¬(i = b) := fun he => hb he.symm
        simp [this, hb, listCommitted, findBin]
  | cons cb rest ih =>
      unfold commitBumpBins at h
      by_cases hcb : cb.bin_id = i
      · rw [if_pos hcb] at h
        obtain ⟨v, hv, h⟩ := except_bind_ok h
        have hv' := okOr_ok hv
        unfold checkedAdd at hv'
        by_cases hlt : cb.payment_token_committed + amt < U64MOD
        · rw [if_pos hlt] at hv'
          cases hv'
          cases h
          rw [listCommitted_cons, listCommitted_cons]
          by_cases hb : cb.bin_id = b
          · rw [if_pos hb, if_pos hb]
            have : b = i := by rw [← hb, hcb]
            rw [if_pos this]
          · rw [if_neg hb, if_neg hb]
            have : ¬b = i := by
              intro he
              exact hb (by rw [hcb, he])
            rw [if_neg this]
            omega
        · rw [if_neg hlt] at hv'
          cases hv'
      · rw [if_neg hcb] at h
        obtain ⟨r, hr, h⟩ := except_bind_ok h
        cases h
        rw [listCommitted_cons, listCommitted_cons]
        by_cases hb : cb.bin_id = b
        · rw [if_pos hb, if_pos hb]
          have : ¬b = i := by
            intro he
            exact hcb (by rw [hb, he])
          rw [if_neg this]
          omega
        · rw [if_neg hb, if_neg hb]
          exact ih hr

/-- The decrease-path ledger update subtracts the amount from the committed
bin and leaves every other bin's committed amount unchanged. -/
theorem decreaseBins_listCommitted (bins : List CommittedBin) (i amt b : Nat) :
    listCommitted (decreaseBins bins i amt) b =
      listCommitted bins b - (if b = i then amt else 0) := by
  induction bins with
  | nil => simp [decreaseBins, listCommitted, findBin]
  | cons cb rest ih =>
      unfold decreaseBins
      by_cases hcb : cb.bin_id = i
      · rw [if_pos hcb]
        rw [listCommitted_cons, listCommitted_cons]
        by_cases hb : cb.bin_id = b
        · rw [if_pos hb, if_pos hb]
          have : b = i := by rw [← hb, hcb]
          rw [if_pos this]
        · rw [if_neg hb, if_neg hb]
          have : ¬b = i := by
            intro he
            exact hb (by rw [hcb, he])
          rw [if_neg this]
          omega
      · rw [if_neg hcb]
        rw [listCommitted_cons, listCommitted_cons]
        by_cases hb : cb.bin_id = b
        · rw [if_pos hb, if_pos hb]
          have : ¬b = i := by
            intro he
            exact hcb (by rw [hb, he])
          rw [if_neg this]
          omega
        · rw [if_neg hb, if_neg hb]
          exact ih

/-- The claim-path sale bump leaves every bin's committed amount unchanged. -/
theorem claimBumpSale_listCommitted (bins : List CommittedBin) (i a b : Nat) :
    listCommitted (claimBumpSale bins i a) b = listCommitted bins b := by
  induction bins with
  | nil => simp [claimBumpSale]
  | cons cb rest ih =>
      unfold claimBumpSale
      by_cases hcb : cb.bin_id = i
      · rw [if_pos hcb]
        rw [listCommitted_cons, listCommitted_cons]
      · rw [if_neg hcb]
        rw [listCommitted_cons, listCommitted_cons]
        by_cases hb : cb.bin_id = b
        · rw [if_pos hb, if_pos hb]
        · rw [if_neg hb, if_neg hb]
          exact ih

/-- The claim-path refund bump leaves every bin's committed amount
unchanged. -/
theorem claimBumpRefund_listCommitted (bins : List CommittedBin) (i a b : Nat) :
    listCommitted (claimBumpRefund bins i a) b = listCommitted bins b := by
  induction bins with
  | nil => simp [claimBumpRefund]
  | cons cb rest ih =>
      unfold claimBumpRefund
      by_cases hcb : cb.bin_id = i
      · rw [if_pos hcb]
        rw [listCommitted_cons, listCommitted_cons]
      · rw [if_neg hcb]
        rw [listCommitted_cons, listCommitted_cons]
        by_cases hb : cb.bin_id = b
        · rw [if_pos hb, if_pos hb]
        · rw [if_neg hb, if_neg hb]
          exact ih


/-- Keys present after `setUser` were present before, or are the stored
key. -/
theorem mem_setUser (users : List (Pubkey × Committed)) (u : Pubkey)
    (c : Committed) (q : Pubkey × Committed)
    (h : q ∈ setUser users u c) : q.1 = u ∨ q ∈ users := by
  induction users with
  | nil =>
      unfold setUser at h
      rcases List.mem_singleton.mp h with rfl
      exact Or.inl rfl
  | cons p rest ih =>
      unfold setUser at h
      by_cases hp : p.1 = u
      · rw [if_pos hp] at h
        rcases List.mem_cons.mp h with rfl | hmem
        · exact Or.inl rfl
        · exact Or.inr (List.mem_cons_of_mem p hmem)
      · rw [if_neg hp] at h
        rcases List.mem_cons.mp h with rfl | hmem
        · exact Or.inr (List.mem_cons_self _ _)
        · rcases ih hmem with hq | hq
          · exact Or.inl hq
          · exact Or.inr (List.mem_cons_of_mem p hq)

/-- `setUser` keeps the user keys pairwise distinct. -/
theorem nodupKeys_setUser (users : List (Pubkey × Committed)) (u : Pubkey)
    (c : Committed) (h : NodupKeys users) : NodupKeys (setUser users u c) := by
  induction users with
  | nil =>
      unfold setUser NodupKeys
      simp
  | cons p rest ih =>
      unfold NodupKeys at h
      rcases List.pairwise_cons.mp h with ⟨hp, hrest⟩
      unfold setUser
      by_cases hpu : p.1 = u
      · unfold NodupKeys
        rw [if_pos hpu]
        refine List.pairwise_cons.mpr ⟨?_, hrest⟩
        intro q hq
        have := hp q hq
        rw [hpu] at this
        exact this
      · unfold NodupKeys
        rw [if_neg hpu]
        refine List.pairwise_cons.mpr ⟨?_, ih hrest⟩
        intro q hq
        rcases mem_setUser rest u c q hq with hq1 | hq1
        · rw [hq1]
          exact hpu
        · exact hp q hq1

/-- `removeUser` yields a sublist, hence keeps keys pairwise distinct. -/
theorem removeUser_sublist (users : List (Pubkey × Committed)) (u : Pubkey) :
    (removeUser users u).Sublist users := by
  induction users with
  | nil => simp [removeUser]
  | cons p rest ih =>
      unfold removeUser
      by_cases hp : p.1 = u
      · rw [if_pos hp]
        exact List.sublist_cons_self p rest
      · rw [if_neg hp]
        exact List.Sublist.cons₂ p ih

/-- `removeUser` keeps the user keys pairwise distinct. -/
theorem nodupKeys_removeUser (users : List (Pubkey × Committed)) (u : Pubkey)
    (h : NodupKeys users) : NodupKeys (removeUser users u) :=
  List.Pairwise.sublist (removeUser_sublist users u) h

/-- With pairwise-distinct keys, a removed user has no record left. -/
theorem lookupUser_removeUser_self (users : List (Pubkey × Committed))
    (u : Pubkey) (h : NodupKeys users) :
    lookupUser (removeUser users u) u = none := by
  induction users with
  | nil => simp [removeUser, lookupUser]
  | cons p rest ih =>
      unfold NodupKeys at h
      rcases List.pairwise_cons.mp h with ⟨hp, hrest⟩
      unfold removeUser
      by_cases hpu : p.1 = u
      · rw [if_pos hpu]
        apply (lookupUser_none_iff rest u).mpr
        intro q hq
        have := hp q hq
        rw [hpu] at this
        exact fun he => this he.symm
      · rw [if_neg hpu]
        unfold lookupUser
        rw [if_neg hpu]
        exact ih hrest

/-- `setUser` preserves whether any user's record exists. -/
theorem lookupUser_setUser_isSome (users : List (Pubkey × Committed))
    (u v : Pubkey) (c : Committed)
    (h : (lookupUser users v).isSome) :
    (lookupUser (setUser users u c) v).isSome := by
  induction users with
  | nil => simp [lookupUser] at h
  | cons p rest ih =>
      unfold lookupUser at h
      by_cases hpu : p.1 = u
      · by_cases hv : p.1 = v
        · have huv : u = v := hpu.symm.trans hv
          simp [setUser, lookupUser, hpu, huv]
        · have huv : ¬u = v := fun he => hv (hpu.trans he)
          rw [if_neg hv] at h
          simpa [setUser, lookupUser, hpu, huv] using h
      · by_cases hv : p.1 = v
        · have hvu : ¬v = u := fun he => hpu (by rw [hv, he])
          simp [setUser, lookupUser, hpu, hv, hvu]
        · rw [if_neg hv] at h
          simpa [setUser, lookupUser, hpu, hv] using ih h

/-- Adding an amount to the raised total of an existing bin shifts
`raisedAt` by exactly that amount at that index. -/
theorem raisedAt_set_add (bins : List AuctionBin) (i : Nat) (bin : AuctionBin)
    (amt : Nat) (hget : bins.get? i = some bin) (b : Nat) :
    raisedAt (bins.set i
        { bin with payment_token_raised := bin.payment_token_raised + amt })
      b = raisedAt bins b + (if b = i then amt else 0) := by
  by_cases hb : b = i
  · subst hb
    rw [raisedAt_set_self, hget]
    unfold raisedAt
    rw [hget, if_pos rfl]
  · rw [raisedAt_set_ne bins i b _ hb, if_neg hb]
    omega

/-- Subtracting an amount from the raised total of an existing bin shifts
`raisedAt` by exactly that amount at that index. -/
theorem raisedAt_set_sub (bins : List AuctionBin) (i : Nat) (bin : AuctionBin)
    (amt : Nat) (hget : bins.get? i = some bin) (b : Nat) :
    raisedAt (bins.set i
        { bin with payment_token_raised := bin.payment_token_raised - amt })
      b = raisedAt bins b - (if b = i then amt else 0) := by
  by_cases hb : b = i
  · subst hb
    rw [raisedAt_set_self, hget]
    unfold raisedAt
    rw [hget, if_pos rfl]
  · rw [raisedAt_set_ne bins i b _ hb, if_neg hb]
    omega


/-- Success shape of `init_auction`: no ledger accounts, bins built from the
parameters with zero raised/claimed totals. -/
theorem init_auction_ok_elim {authority : Pubkey} {now cs ce cls : Int}
    {bins : List AuctionBinParams} {custody : Pubkey}
    {ext : AuctionExtensions} {s : LaunchpadState}
    (h : init_auction authority now cs ce cls bins custody ext = .ok s) :
    s.users = [] ∧
    s.auction.bins = bins.map (fun params =>
      { sale_token_price := params.sale_token_price
        sale_token_cap := params.sale_token_cap
        payment_token_raised := 0
        sale_token_claimed := 0 }) := by
  unfold init_auction at h
  split_ifs at h <;> cases h <;> exact ⟨rfl, rfl⟩

/-- The first matching ledger entry carries the committed amount that
`listCommitted` reports. -/
theorem listCommitted_of_findBin {bins : List CommittedBin} {i : Nat}
    {cb : CommittedBin} (h : findBin bins i = some cb) :
    listCommitted bins i = cb.payment_token_committed := by
  unfold listCommitted
  rw [h]

/-- Per-bin effect of a successful `commit`: the per-bin committed sum and
the bin's raised total both grow by the committed amount (at the committed
bin, and only there), and distinct user keys are preserved. -/
theorem commit_delta {s : LaunchpadState} {user : Pubkey}
    {bin_id amt exp : Nat} {now : Int} {ak : Pubkey} {ca : Option Pubkey}
    {sv : Option Ed25519Ix} {s' : LaunchpadState}
    (h : commit s user bin_id amt exp now ak ca sv = .ok s') :
    (∀ b, sumCommitted s' b =
        sumCommitted s b + (if b = bin_id then amt else 0) ∧
      binRaised s' b = binRaised s b + (if b = bin_id then amt else 0)) ∧
    (NodupKeys s.users → NodupKeys s'.users) := by
  obtain ⟨bin, bins1, tp1, hget, hbump, hs'⟩ := commit_ok_elim h
  have husers : s'.users = setUser s.users user
      { user := user
        bins := bins1
        nonce := ((lookupUser s.users user).getD
          { user := user, bins := [], nonce := 0 }).nonce + 1 } := by
    rw [hs']
  have hbins : s'.auction.bins = s.auction.bins.set bin_id
      { bin with payment_token_raised := bin.payment_token_raised + amt } := by
    rw [hs']
  constructor
  · intro b
    constructor
    · unfold sumCommitted
      rw [husers]
      generalize ((lookupUser s.users user).getD
        { user := user, bins := [], nonce := 0 }).nonce + 1 = n1
      cases hlu : lookupUser s.users user with
      | none =>
          have hset := sumCommittedList_setUser_none s.users user
            { user := user, bins := bins1, nonce := n1 } b hlu
          rw [hset]
          rw [hlu] at hbump
          simp only [Option.getD_none] at hbump
          have hcb := commitBumpBins_listCommitted hbump b
          unfold committedInBin
          rw [hcb]
          have h0 : listCommitted [] b = 0 := rfl
          rw [h0]
          omega
      | some c0 =>
          have hsum := sumCommittedList_setUser_some s.users user c0
            { user := user, bins := bins1, nonce := n1 } b hlu
          rw [hlu] at hbump
          simp only [Option.getD_some] at hbump
          have hcb := commitBumpBins_listCommitted hbump b
          unfold committedInBin at hsum
          rw [hcb] at hsum
          omega
    · unfold binRaised
      rw [hbins]
      exact raisedAt_set_add s.auction.bins bin_id bin amt hget b
  · intro hnd
    rw [husers]
    exact nodupKeys_setUser s.users user _ hnd

/-- Per-bin effect of a successful `decrease_commit`: both the per-bin
committed sum and the bin's raised total shrink by the reverted amount, the
shrink never exceeds the committed sum, and distinct user keys are
preserved. -/
theorem decrease_commit_delta {s : LaunchpadState} {user : Pubkey}
    {bin_id amt : Nat} {now : Int} {s' : LaunchpadState}
    (h : decrease_commit s user bin_id amt now = .ok s') :
    (∀ b, sumCommitted s' b =
        sumCommitted s b - (if b = bin_id then amt else 0) ∧
      (if b = bin_id then amt else 0) ≤ sumCommitted s b ∧
      binRaised s' b = binRaised s b - (if b = bin_id then amt else 0)) ∧
    (NodupKeys s.users → NodupKeys s'.users) := by
  obtain ⟨c, cb, bin, hc, hcb, hle, hget, hs'⟩ := decrease_commit_ok_elim h
  have husers : s'.users = setUser s.users user
      { c with bins := decreaseBins c.bins bin_id amt } := by
    rw [hs']
  have hbins : s'.auction.bins = s.auction.bins.set bin_id
      { bin with payment_token_raised := bin.payment_token_raised - amt } := by
    rw [hs']
  have hcommitted : listCommitted c.bins bin_id = cb.payment_token_committed :=
    listCommitted_of_findBin hcb
  constructor
  · intro b
    have hsum := sumCommittedList_setUser_some s.users user c
      { c with bins := decreaseBins c.bins bin_id amt } b hc
    have hdec := decreaseBins_listCommitted c.bins bin_id amt b
    have hmem := committedInBin_le_sum s.users user c b hc
    unfold committedInBin at hsum hmem
    rw [hdec] at hsum
    have hbound : (if b = bin_id then amt else 0) ≤ listCommitted c.bins b := by
      by_cases hb : b = bin_id
      · rw [if_pos hb, hb, hcommitted]
        exact hle
      · rw [if_neg hb]
        omega
    refine ⟨?_, ?_, ?_⟩
    · unfold sumCommitted
      rw [husers]
      omega
    · unfold sumCommitted
      omega
    · unfold binRaised
      rw [hbins]
      exact raisedAt_set_sub s.auction.bins bin_id bin amt hget b
  · intro hnd
    rw [husers]
    exact nodupKeys_setUser s.users user _ hnd

/-- A successful `claim` that destroys no ledger account changes neither the
per-bin committed sums nor any bin's raised total, and keeps keys
distinct. -/
theorem claim_preserve {s : LaunchpadState} {user : Pubkey}
    {bin_id sale refund : Nat} {now : Int} {s' : LaunchpadState}
    (h : claim s user bin_id sale refund now = .ok s')
    (hnc : ∀ u : Pubkey, (lookupUser s.users u).isSome →
      (lookupUser s'.users u).isSome)
    (hnd : NodupKeys s.users) :
    (∀ b, sumCommitted s' b = sumCommitted s b ∧
      binRaised s' b = binRaised s b) ∧
    NodupKeys s'.users := by
  obtain ⟨c, cb, bin, fees1, allb, hc, hcb, hget, hs'⟩ := claim_ok_elim h
  have hbins : s'.auction.bins =
      (if sale > 0 then
        s.auction.bins.set bin_id
          { bin with sale_token_claimed := bin.sale_token_claimed + sale }
      else
        s.auction.bins) := by
    rw [hs']
  have hraised : ∀ b, binRaised s' b = binRaised s b := by
    intro b
    unfold binRaised
    rw [hbins]
    by_cases hsale : sale > 0
    · rw [if_pos hsale]
      exact raisedAt_set_preserve s.auction.bins bin_id bin
        { bin with sale_token_claimed := bin.sale_token_claimed + sale }
        hget rfl b
    · rw [if_neg hsale]
  by_cases hallb : allb = true
  · exfalso
    rw [if_pos hallb] at hs'
    have husers : s'.users = removeUser s.users user := by
      rw [hs']
    have hsome : (lookupUser s.users user).isSome := by
      rw [hc]
      rfl
    have := hnc user hsome
    rw [husers, lookupUser_removeUser_self s.users user hnd] at this
    cases this
  · rw [if_neg hallb] at hs'
    have husers : s'.users = setUser s.users user
        { c with bins :=
            (if refund > 0 then
              claimBumpRefund
                (if sale > 0 then claimBumpSale c.bins bin_id sale
                 else c.bins) bin_id refund
            else
              (if sale > 0 then claimBumpSale c.bins bin_id sale
               else c.bins)) } := by
      rw [hs']
    have hkeep : ∀ b, listCommitted
        (if refund > 0 then
          claimBumpRefund
            (if sale > 0 then claimBumpSale c.bins bin_id sale else c.bins)
            bin_id refund
        else
          (if sale > 0 then claimBumpSale c.bins bin_id sale else c.bins))
        b = listCommitted c.bins b := by
      intro b
      by_cases hr : refund > 0
      · rw [if_pos hr, claimBumpRefund_listCommitted]
        by_cases hsale : sale > 0
        · rw [if_pos hsale, claimBumpSale_listCommitted]
        · rw [if_neg hsale]
      · rw [if_neg hr]
        by_cases hsale : sale > 0
        · rw [if_pos hsale, claimBumpSale_listCommitted]
        · rw [if_neg hsale]
    constructor
    · intro b
      refine ⟨?_, hraised b⟩
      unfold sumCommitted
      rw [husers]
      have hsum := sumCommittedList_setUser_some s.users user c
        { c with bins :=
            (if refund > 0 then
              claimBumpRefund
                (if sale > 0 then claimBumpSale c.bins bin_id sale
                 else c.bins) bin_id refund
            else
              (if sale > 0 then claimBumpSale c.bins bin_id sale
               else c.bins)) } b hc
      unfold committedInBin at hsum
      rw [hkeep b] at hsum
      omega
    · rw [husers]
      exact nodupKeys_setUser s.users user _ hnd


/-- Along runs that never destroy a ledger account, user keys stay pairwise
distinct and every bin's raised total equals the per-bin committed sum. -/
theorem reachableNC_inv (s : LaunchpadState) (h : ReachableNC s) :
    NodupKeys s.users ∧ ∀ b, sumCommitted s b = binRaised s b := by
  induction h with
  | init authority now cs ce cls bins custody ext s h =>
      obtain ⟨husers, hbins⟩ := init_auction_ok_elim h
      constructor
      · unfold NodupKeys
        rw [husers]
        exact List.Pairwise.nil
      · intro b
        unfold sumCommitted binRaised raisedAt
        rw [husers, hbins]
        rw [List.get?_map]
        cases bins.get? b <;> simp [sumCommittedList]
  | step s op s' hre hstep hkeys ih =>
      obtain ⟨ihnd, iheq⟩ := ih
      cases op with
      | opCommit user bin_id amt exp now ak ca sv =>
          have hd := commit_delta hstep
          refine ⟨hd.2 ihnd, fun b => ?_⟩
          rw [(hd.1 b).1, (hd.1 b).2, iheq b]
      | opDecreaseCommit user bin_id amt now =>
          have hd := decrease_commit_delta hstep
          refine ⟨hd.2 ihnd, fun b => ?_⟩
          rw [(hd.1 b).1, (hd.1 b).2.2, iheq b]
      | opClaim user bin_id sale refund now =>
          have hd := claim_preserve hstep hkeys ihnd
          refine ⟨hd.2, fun b => ?_⟩
          rw [(hd.1 b).1, (hd.1 b).2, iheq b]
      | opWithdrawFunds authority now =>
          have hs' := (withdraw_funds_ok_elim hstep).2
          have husers : s'.users = s.users := by rw [hs']
          have hbins : s'.auction.bins = s.auction.bins := by rw [hs']
          refine ⟨?_, fun b => ?_⟩
          · unfold NodupKeys at ihnd ⊢
            rw [husers]
            exact ihnd
          · unfold sumCommitted binRaised
            rw [husers, hbins]
            exact iheq b
      | opWithdrawFees authority now =>
          have hs' := withdraw_fees_ok_elim hstep
          have husers : s'.users = s.users := by rw [hs']
          have hbins : s'.auction.bins = s.auction.bins := by rw [hs']
          refine ⟨?_, fun b => ?_⟩
          · unfold NodupKeys at ihnd ⊢
            rw [husers]
            exact ihnd
          · unfold sumCommitted binRaised
            rw [husers, hbins]
            exact iheq b
      | opSetPrice authority bin_id new_price =>
          obtain ⟨bin, hget, hp, hs'⟩ := set_price_ok_elim hstep
          have husers : s'.users = s.users := by rw [hs']
          have hbins : s'.auction.bins = s.auction.bins.set bin_id
              { bin with sale_token_price := new_price } := by rw [hs']
          refine ⟨?_, fun b => ?_⟩
          · unfold NodupKeys at ihnd ⊢
            rw [husers]
            exact ihnd
          · unfold sumCommitted binRaised
            rw [husers, hbins]
            rw [raisedAt_set_preserve s.auction.bins bin_id bin
              { bin with sale_token_price := new_price } hget rfl b]
            exact iheq b
      | opEmergencyControl authority p1 p2 p3 p4 p5 =>
          have hs' := emergency_control_ok_elim hstep
          have husers : s'.users = s.users := by rw [hs']
          have hbins : s'.auction.bins = s.auction.bins := by rw [hs']
          refine ⟨?_, fun b => ?_⟩
          · unfold NodupKeys at ihnd ⊢
            rw [husers]
            exact ihnd
          · unfold sumCommitted binRaised
            rw [husers, hbins]
            exact iheq b

/-- C7 counterexample: the state reached by init → commit 1000 → full claim
is reachable, yet the sum of all users' committed payment for bin 0 is 0
(the ledger account was destroyed at full settlement) while the bin's
`payment_token_raised` is still 1000 — so the claimed equality "in every
reachable state" fails. -/
theorem C7_counterexample :
    Reachable c7S2 ∧ sumCommitted c7S2 0 = 0 ∧ binRaised c7S2 0 = 1000 := by
  refine ⟨?_, by decide, by decide⟩
  exact Reachable.step cexS1 (.opClaim cexUser 0 100 0 100) c7S2
    (Reachable.step cexS0 (.opCommit cexUser 0 1000 0 50 [] none none) cexS1
      (Reachable.init LAUNCHPAD_ADMIN 0 0 100 100
        [{ sale_token_price := 10, sale_token_cap := 200 }] cexCustody cexExt
        cexS0 rfl)
      rfl)
    rfl

/-- C7 amended: per bin, the sum of all users' committed payment equals the
bin's `payment_token_raised` in every reachable state in which no ledger
account has been destroyed; a successful commit of amount `a` to a bin
increases both the sum and the bin's raised by `a`; a successful
decrease_commit decreases both by `a`; a claim that destroys no account
changes neither, and withdraw_funds, withdraw_fees, set_price and
emergency_control change neither.  (The claim-path account closure at full
settlement is the sole exception: it removes the user's committed amounts
from the sum while leaving raised unchanged, as the counterexample
shows.) -/
theorem C7_conservation_amended :
    (∀ s : LaunchpadState, ReachableNC s →
      ∀ b, sumCommitted s b = binRaised s b) ∧
    (∀ (s : LaunchpadState) (user : Pubkey) (bin_id amt exp : Nat)
      (now : Int) (ak : Pubkey) (ca : Option Pubkey) (sv : Option Ed25519Ix)
      (s' : LaunchpadState),
      commit s user bin_id amt exp now ak ca sv = .ok s' →
      ∀ b, sumCommitted s' b =
          sumCommitted s b + (if b = bin_id then amt else 0) ∧
        binRaised s' b = binRaised s b + (if b = bin_id then amt else 0)) ∧
    (∀ (s : LaunchpadState) (user : Pubkey) (bin_id amt : Nat) (now : Int)
      (s' : LaunchpadState),
      decrease_commit s user bin_id amt now = .ok s' →
      ∀ b, sumCommitted s' b =
          sumCommitted s b - (if b = bin_id then amt else 0) ∧
        binRaised s' b = binRaised s b - (if b = bin_id then amt else 0)) ∧
    (∀ (s : LaunchpadState) (user : Pubkey) (bin_id sale refund : Nat)
      (now : Int) (s' : LaunchpadState),
      claim s user bin_id sale refund now = .ok s' →
      (∀ u : Pubkey, (lookupUser s.users u).isSome →
        (lookupUser s'.users u).isSome) →
      NodupKeys s.users →
      ∀ b, sumCommitted s' b = sumCommitted s b ∧
        binRaised s' b = binRaised s b) ∧
    (∀ (s : LaunchpadState) (authority : Pubkey) (now : Int)
      (s' : LaunchpadState),
      withdraw_funds s authority now = .ok s' →
      ∀ b, sumCommitted s' b = sumCommitted s b ∧
        binRaised s' b = binRaised s b) ∧
    (∀ (s : LaunchpadState) (authority : Pubkey) (now : Int)
      (s' : LaunchpadState),
      withdraw_fees s authority now = .ok s' →
      ∀ b, sumCommitted s' b = sumCommitted s b ∧
        binRaised s' b = binRaised s b) ∧
    (∀ (s : LaunchpadState) (authority : Pubkey) (bin_id new_price : Nat)
      (s' : LaunchpadState),
      set_price s authority bin_id new_price = .ok s' →
      ∀ b, sumCommitted s' b = sumCommitted s b ∧
        binRaised s' b = binRaised s b) ∧
    (∀ (s : LaunchpadState) (authority : Pubkey) (p1 p2 p3 p4 p5 : Bool)
      (s' : LaunchpadState),
      emergency_control s authority p1 p2 p3 p4 p5 = .ok s' →
      ∀ b, sumCommitted s' b = sumCommitted s b ∧
        binRaised s' b = binRaised s b) := by
  refine ⟨?_, ?_, ?_, ?_, ?_, ?_, ?_, ?_⟩
  · intro s h b
    exact (reachableNC_inv s h).2 b
  · intro s user bin_id amt exp now ak ca sv s' h b
    exact (commit_delta h).1 b
  · intro s user bin_id amt now s' h b
    refine ⟨((decrease_commit_delta h).1 b).1, ((decrease_commit_delta h).1 b).2.2⟩
  · intro s user bin_id sale refund now s' h hnc hnd b
    exact (claim_preserve h hnc hnd).1 b
  · intro s authority now s' h b
    have hs' := (withdraw_funds_ok_elim h).2
    have husers : s'.users = s.users := by rw [hs']
    have hbins : s'.auction.bins = s.auction.bins := by rw [hs']
    unfold sumCommitted binRaised
    rw [husers, hbins]
    exact ⟨rfl, rfl⟩
  · intro s authority now s' h b
    have hs' := withdraw_fees_ok_elim h
    have husers : s'.users = s.users := by rw [hs']
    have hbins : s'.auction.bins = s.auction.bins := by rw [hs']
    unfold sumCommitted binRaised
    rw [husers, hbins]
    exact ⟨rfl, rfl⟩
  · intro s authority bin_id new_price s' h b
    obtain ⟨bin, hget, hp, hs'⟩ := set_price_ok_elim h
    have husers : s'.users = s.users := by rw [hs']
    have hbins : s'.auction.bins = s.auction.bins.set bin_id
        { bin with sale_token_price := new_price } := by rw [hs']
    unfold sumCommitted binRaised
    rw [husers, hbins]
    refine ⟨rfl, ?_⟩
    exact raisedAt_set_preserve s.auction.bins bin_id bin
      { bin with sale_token_price := new_price } hget rfl b
  · intro s authority p1 p2 p3 p4 p5 s' h b
    have hs' := emergency_control_ok_elim h
    have husers : s'.users = s.users := by rw [hs']
    have hbins : s'.auction.bins = s.auction.bins := by rw [hs']
    unfold sumCommitted binRaised
    rw [husers, hbins]
    exact ⟨rfl, rfl⟩

/-- Witness for C7's amended theorem: on the no-closure reachable state
`cexS1` the committed sum of bin 0 equals its raised total. -/
theorem C7_conservation_amended_witness :
    sumCommitted cexS1 0 = binRaised cexS1 0 :=
  C7_conservation_amended.1 cexS1
    (ReachableNC.step cexS0 (.opCommit cexUser 0 1000 0 50 [] none none)
      cexS1
      (ReachableNC.init LAUNCHPAD_ADMIN 0 0 100 100
        [{ sale_token_price := 10, sale_token_cap := 200 }] cexCustody cexExt
        cexS0 rfl)
      rfl
      (by
        intro u hu
        simp [cexS0, lookupUser] at hu))
    0


end Launchpad
